import Mathlib

set_option maxRecDepth 10000

/-! Shallow embedding of the multi-resolution canonical k-mer hashing engine
of biomcmc-lib (`kmerhash.c`).  Conventions used throughout:

* C unsigned 64-bit words are `ℕ` with an explicit `% 2^64` wherever the C
  arithmetic can wrap (left shifts); right shifts are exact `ℕ` division.
* C bitwise `|`, `&`, `>>`, `<<` are `|||`, `&&&`, division and
  multiplication by powers of two (with the wrap-around `% 2^64`).
* C arrays written by index are functions `ℕ → ℕ` updated with
  `Function.update`; the contents of freshly `malloc`ed memory are an
  explicit parameter `mem : ℕ → ℕ` (the struct layout lives in `kmerhash.h`,
  which only declares the fields used below).
* The pluggable seeded hash (`biomcmc_xxh64`, external to this file's
  source) is an opaque parameter `xxh : List ℕ → ℕ → ℕ` taking the byte
  string actually passed to it (little-endian bytes of the word(s), as the
  C code hands a pointer plus a byte count) and the seed.
* The DNA buffer is a `List ℕ` of byte values; `kmer->dna[kmer->i]` is
  `dna.getD i 0`.  The C code indexes the translation tables with
  `(int)(kmer->dna[i])`, i.e. through the (commonly signed) `char` type;
  the tables below take the byte value directly, which agrees with the C
  behaviour for byte values 0..127, and `charIdx` separately models the
  signed-char cast for the out-of-range analysis. -/

/-- The static per-length mask catalogue `_tbl_mask[]` of kmerhash.c.  Note
that element 5 is `0xffffffffffff` (48 bits) in the source, identical to
element 4, while the shift/byte-count columns of the same table say 56 bits
for element 5. -/
def tbl_mask : List ℕ :=
  [0xffff, 0xffffff, 0xffffffff, 0xffffffffff, 0xffffffffffff,
   0xffffffffffff, 0xffffffffffffffff]

/-- The static shift catalogue `_tbl_shift[]` of kmerhash.c. -/
def tbl_shift : List ℕ := [48, 40, 32, 24, 16, 8, 0]

/-- The static byte-count catalogue `_tbl_nbyte[]` of kmerhash.c. -/
def tbl_nbyte : List ℕ := [2, 3, 4, 5, 6, 7, 8]

/-- The static seed catalogue `_tbl_seed[]` of kmerhash.c. -/
def tbl_seed : List ℕ :=
  [0x9040a6, 0x10bea992, 0x50edd67d, 0xb05a4f09, 0xf07046c5, 0x9c9445ab,
   0xb2500f29]

/-- `_idx_mode[][2][7]` of kmerhash.c: per row, the catalogue elements used
for the single-word (first list) and double-word (second list) lengths. -/
def idx_mode : List (List (List ℕ)) :=
  [[[2, 6, 0, 0, 0, 0, 0], [0, 0, 0, 0, 0, 0, 0]],
   [[2, 6, 0, 0, 0, 0, 0], [2, 6, 0, 0, 0, 0, 0]],
   [[0, 2, 4, 6, 0, 0, 0], [2, 6, 0, 0, 0, 0, 0]],
   [[0, 1, 2, 4, 6, 0, 0], [0, 2, 6, 0, 0, 0, 0]],
   [[0, 1, 2, 3, 4, 5, 6], [0, 0, 0, 0, 0, 0, 0]],
   [[0, 1, 2, 3, 4, 5, 6], [0, 1, 2, 6, 0, 0, 0]]]

/-- `_n_idx[][2]` of kmerhash.c: how many elements of `idx_mode` are used
per row, for the single-word and double-word blocks. -/
def n_idx : List (ℕ × ℕ) := [(2, 0), (2, 2), (4, 2), (5, 3), (7, 0), (7, 4)]

/-- `_ba_pe_by[] = {2,4,8}` of `new_kmer_params`: bases per byte, indexed by
the density class `dense` (0 = 4 bits/base, 1 = 2 bits/base, 2 = 1 bit/base). -/
def ba_pe_by : List ℕ := [2, 4, 8]

/-- `dna_in_4_bits[256][2]` as built by `initialize_dna_to_bit_tables`:
each recognized character maps to its 4-bit membership mask and the mask of
its complement; the table is first zero-filled, so every unrecognized byte
value carries `(0, 0)` (the same pattern as the gap character). -/
def dna_in_4_bits (b : ℕ) : ℕ × ℕ :=
  if b = 65 then (1, 8)
  else if b = 66 then (14, 7)
  else if b = 67 then (2, 4)
  else if b = 68 then (13, 11)
  else if b = 71 then (4, 2)
  else if b = 72 then (11, 13)
  else if b = 75 then (12, 3)
  else if b = 77 then (3, 12)
  else if b = 78 then (15, 15)
  else if b = 79 then (15, 15)
  else if b = 82 then (5, 10)
  else if b = 83 then (6, 6)
  else if b = 84 then (8, 1)
  else if b = 85 then (8, 1)
  else if b = 86 then (7, 14)
  else if b = 87 then (9, 9)
  else if b = 88 then (15, 15)
  else if b = 89 then (10, 5)
  else if b = 63 then (15, 15)
  else if b = 45 then (0, 0)
  else (0, 0)

/-- `dna_in_2_bits[256][2]`: strict ACGT(U) alphabet, sentinel 4 elsewhere. -/
def dna_in_2_bits (b : ℕ) : ℕ × ℕ :=
  if b = 65 then (0, 3)
  else if b = 67 then (1, 2)
  else if b = 71 then (2, 1)
  else if b = 84 then (3, 0)
  else if b = 85 then (3, 0)
  else (4, 4)

/-- `dna_in_1_bits[256][2]`: GC-content classes (A/T ↦ 0, C/G ↦ 1),
sentinel 4 elsewhere; forward and reverse columns are set identically. -/
def dna_in_1_bits (b : ℕ) : ℕ × ℕ :=
  if b = 65 then (0, 0)
  else if b = 84 then (0, 0)
  else if b = 67 then (1, 1)
  else if b = 71 then (1, 1)
  else (4, 4)

/-- `struct kmer_params_struct` (declared in kmerhash.h): per-length masks,
shifts, seeds, byte counts and symbol counts, the density class, the counts
of single-word (`n1`) and double-word (`n2`) lengths, and the pluggable
seeded hash function. -/
structure kmer_params where
  kmer_class_mode : ℤ
  dense : ℕ
  n1 : ℕ
  n2 : ℕ
  mask1 : ℕ → ℕ
  shift1 : ℕ → ℕ
  mask2 : ℕ → ℕ
  shift2 : ℕ → ℕ
  seed : ℕ → ℕ
  nbytes : ℕ → ℕ
  size : ℕ → ℕ
  hashfunction : List ℕ → ℕ → ℕ

/-- The shared tail of `new_kmer_params` after the `switch` has selected
`row` and `dense`: the two catalogue-copying loops.  The C loops each write
several arrays in one body; here each array is folded separately (the writes
are independent).  The second loop faithfully reproduces the source's index
use: `seed[j]` (not `seed[j + n1]`) receives the transformed secondary seed
`(_tbl_seed[i] >> 2) + 0x420314a1d`, while `nbytes` and `size` are written
at `j + n1`.  `mem` is the content of the freshly allocated (uninitialized)
struct memory. -/
def new_kmer_params_build (xxh : List ℕ → ℕ → ℕ) (mem : ℕ → ℕ) (mode : ℤ)
    (row dense : ℕ) : kmer_params :=
  let bases_per_byte := ba_pe_by.getD dense 0
  let n1 := (n_idx.getD row (0, 0)).1
  let n2 := (n_idx.getD row (0, 0)).2
  let idx1 : ℕ → ℕ := fun j => ((idx_mode.getD row []).getD 0 []).getD j 0
  let idx2 : ℕ → ℕ := fun j => ((idx_mode.getD row []).getD 1 []).getD j 0
  { kmer_class_mode := mode
    dense := dense
    n1 := n1
    n2 := n2
    mask1 := (List.range n1).foldl
      (fun f j => Function.update f j (tbl_mask.getD (idx1 j) 0)) mem
    shift1 := (List.range n1).foldl
      (fun f j => Function.update f j (tbl_shift.getD (idx1 j) 0)) mem
    mask2 := (List.range n2).foldl
      (fun f j => Function.update f j (tbl_mask.getD (idx2 j) 0)) mem
    shift2 := (List.range n2).foldl
      (fun f j => Function.update f j (tbl_shift.getD (idx2 j) 0)) mem
    seed := (List.range n2).foldl
      (fun f j => Function.update f j (tbl_seed.getD (idx2 j) 0 / 4 + 0x420314a1d))
      ((List.range n1).foldl
        (fun f j => Function.update f j (tbl_seed.getD (idx1 j) 0)) mem)
    nbytes := (List.range n2).foldl
      (fun f j => Function.update f (j + n1) (tbl_nbyte.getD (idx2 j) 0 + 8))
      ((List.range n1).foldl
        (fun f j => Function.update f j (tbl_nbyte.getD (idx1 j) 0)) mem)
    size := (List.range n2).foldl
      (fun f j => Function.update f (j + n1) ((tbl_nbyte.getD (idx2 j) 0 + 8) * bases_per_byte))
      ((List.range n1).foldl
        (fun f j => Function.update f j (tbl_nbyte.getD (idx1 j) 0 * bases_per_byte)) mem)
    hashfunction := xxh }

/-- `new_kmer_params`: the `switch (mode)` of the source.  `case 3` and
`default` share one branch (row 4, dense 1), so every out-of-range mode
builds the same configuration as mode 3. -/
def new_kmer_params (xxh : List ℕ → ℕ → ℕ) (mem : ℕ → ℕ) (mode : ℤ) : kmer_params :=
  if mode = 0 then new_kmer_params_build xxh mem mode 0 1
  else if mode = 1 then new_kmer_params_build xxh mem mode 2 1
  else if mode = 2 then new_kmer_params_build xxh mem mode 3 0
  else if mode = 4 then new_kmer_params_build xxh mem mode 5 0
  else if mode = 5 then new_kmer_params_build xxh mem mode 1 2
  else new_kmer_params_build xxh mem mode 4 1

/-- `struct kmerhash_struct`: the forward and reverse register pairs, the
per-length hash and raw-kmer output arrays, the bound parameters, the input
buffer and the cursor. -/
structure kmerhash where
  forward0 : ℕ
  forward1 : ℕ
  reverse0 : ℕ
  reverse1 : ℕ
  hash : ℕ → ℕ
  kmer : ℕ → ℕ
  p : kmer_params
  dna : List ℕ
  i : ℕ

/-- `new_kmerhash`: builds the parameters and zeroes the registers and the
first `n1 + n2` hash slots and the first `n1` raw-kmer slots of the freshly
allocated output arrays (`memh` is the malloc background). -/
def new_kmerhash (xxh : List ℕ → ℕ → ℕ) (memp memh : ℕ → ℕ) (mode : ℤ) : kmerhash :=
  let p := new_kmer_params xxh memp mode
  { forward0 := 0, forward1 := 0, reverse0 := 0, reverse1 := 0
    hash := (List.range (p.n1 + p.n2)).foldl (fun f j => Function.update f j 0) memh
    kmer := (List.range p.n1).foldl (fun f j => Function.update f j 0) memh
    p := p
    dna := []
    i := 0 }

/-- `link_kmerhash_to_dna_sequence`: rebinds the input buffer and resets
cursor, registers and outputs. -/
def link_kmerhash_to_dna_sequence (kh : kmerhash) (dna : List ℕ) : kmerhash :=
  { kh with
    dna := dna
    i := 0
    forward0 := 0, forward1 := 0, reverse0 := 0, reverse1 := 0
    hash := (List.range (kh.p.n1 + kh.p.n2)).foldl (fun f j => Function.update f j 0) kh.hash
    kmer := (List.range kh.p.n1).foldl (fun f j => Function.update f j 0) kh.kmer }

/-- Bits per symbol of a density class: `dense = 2` is the 1-bit GC encoding,
`dense = 1` the 2-bit encoding, `dense = 0` the 4-bit encoding. -/
def densBits (d : ℕ) : ℕ := if d = 2 then 1 else if d = 1 then 2 else 4

/-- The skip test of `kmerhash_iterator`'s while loops: at `dense = 2` a
symbol is skipped when `dna_in_1_bits[c][0] > 1`, at `dense = 1` when
`dna_in_2_bits[c][0] > 3`; the 4-bit branch has no skip loop. -/
def densSkip (d b : ℕ) : Bool :=
  if d = 2 then decide (1 < (dna_in_1_bits b).1)
  else if d = 1 then decide (3 < (dna_in_2_bits b).1)
  else false

/-- The (forward, reverse) code pair a byte contributes at a density. -/
def densCode (d b : ℕ) : ℕ × ℕ :=
  if d = 2 then dna_in_1_bits b else if d = 1 then dna_in_2_bits b else dna_in_4_bits b

/-- One window-register update of `kmerhash_iterator` (lines shared by the
three density branches, with `w` = 1, 2 or 4 bits and the two-register carry
lines executed only when `n2 > 0`): the forward pair shifts left by `w` and
receives the forward code `cr.1` in the low bits of `forward[0]`; the
reverse pair shifts right by `w` and receives the reverse code `cr.2` in the
high bits of `reverse[1]`.  E.g. at `w = 2`:
`forward[1] = forward[1] << 2 | forward[0] >> 62` is
`forward1 * 2^2 % 2^64 ||| forward0 / 2^62`, and so on. -/
def absorbW (useTwo : Bool) (w : ℕ) (cr : ℕ × ℕ) (st : kmerhash) : kmerhash :=
  let st1 :=
    if useTwo then
      { st with
        forward1 := st.forward1 * 2 ^ w % 2 ^ 64 ||| st.forward0 / 2 ^ (64 - w)
        reverse0 := st.reverse0 / 2 ^ w ||| st.reverse1 * 2 ^ (64 - w) % 2 ^ 64 }
    else st
  { st1 with
    forward0 := st1.forward0 * 2 ^ w % 2 ^ 64 ||| cr.1
    reverse1 := st1.reverse1 / 2 ^ w ||| cr.2 * 2 ^ (64 - w) % 2 ^ 64 }

/-- One full symbol absorption of `kmerhash_iterator`: the register update
for the byte `b` at the configured density, followed by `kmer->i++`. -/
def absorbStep (p : kmer_params) (st : kmerhash) (b : ℕ) : kmerhash :=
  { absorbW (p.n2 != 0) (densBits p.dense) (densCode p.dense b) st with i := st.i + 1 }

/-- The first `nb` little-endian bytes of a 64-bit word: what the C code
hands to the hash function from a `uint64_t*` plus a byte count. -/
def leBytes (nb x : ℕ) : List ℕ := (List.range nb).map fun t => x / 2 ^ (8 * t) % 256

/-- The single-word emission loop of `kmerhash_iterator`: for every length
index below `n1` whose symbol-count requirement is met by the cursor, the
canonical raw value is `min(forward[0] & mask1[i], reverse[1] >> shift1[i])`
(`if (hr < hf) hf = hr`), stored in `kmer[i]` and hashed with `nbytes[i]`
bytes and `seed[i]`. -/
def emitStep1 (p : kmer_params) (s : kmerhash) (idx : ℕ) : kmerhash :=
  if p.size idx ≤ s.i then
    let hf := s.forward0 &&& p.mask1 idx
    let hr := s.reverse1 >>> p.shift1 idx
    let hv := if hr < hf then hr else hf
    { s with
      kmer := Function.update s.kmer idx hv
      hash := Function.update s.hash idx
        (p.hashfunction (leBytes (p.nbytes idx) hv) (p.seed idx)) }
  else s

/-- The single-word emission loop, iterating `emitStep1` over `0..n1-1`. -/
def emit1 (p : kmer_params) (st : kmerhash) : kmerhash :=
  (List.range p.n1).foldl (emitStep1 p) st

/-- The double-word emission loop of `kmerhash_iterator` (`j = n1 + i`):
forward is hashed when `forward[0] < reverse[1]`, or on a tie when
`(forward[1] & mask2[i]) < (reverse[0] >> shift2[i])`; otherwise the hash
reads `nbytes[j]` bytes starting `shift2[i]` *bytes* into the reverse pair
viewed as one 16-byte little-endian buffer (`rev8b + shift2[i]`).  The C
read runs past the 16-byte buffer whenever `shift2[i] + nbytes[j] > 16`;
the model truncates the byte list at the buffer end, and the out-of-bounds
span itself is analysed via `rev_span`. -/
def emitStep2 (p : kmer_params) (s : kmerhash) (i2 : ℕ) : kmerhash :=
  let j := p.n1 + i2
  if p.size j ≤ s.i then
    let bytes :=
      if s.forward0 < s.reverse1 then
        (leBytes 8 s.forward0 ++ leBytes 8 s.forward1).take (p.nbytes j)
      else if s.forward0 = s.reverse1 ∧
          (s.forward1 &&& p.mask2 i2) < (s.reverse0 >>> p.shift2 i2) then
        (leBytes 8 s.forward0 ++ leBytes 8 s.forward1).take (p.nbytes j)
      else
        ((leBytes 8 s.reverse0 ++ leBytes 8 s.reverse1).drop (p.shift2 i2)).take (p.nbytes j)
    { s with hash := Function.update s.hash j (p.hashfunction bytes (p.seed j)) }
  else s

/-- The double-word emission loop, iterating `emitStep2` over `0..n2-1`. -/
def emit2 (p : kmer_params) (st : kmerhash) : kmerhash :=
  (List.range p.n2).foldl (emitStep2 p) st

/-- Both emission loops of `kmerhash_iterator`, in source order. -/
def emitAll (p : kmer_params) (st : kmerhash) : kmerhash := emit2 p (emit1 p st)

/-- The skip loops of `kmerhash_iterator`
(`while ((kmer->i < kmer->n_dna) && invalid) kmer->i++;`), with fuel
`n_dna - i`, which is exactly the number of steps after which the loop
condition `i < n_dna` fails anyway. -/
def skipGo (cond : ℕ → Bool) : ℕ → kmerhash → kmerhash
  | 0, st => st
  | f + 1, st =>
    if st.i < st.dna.length ∧ cond (st.dna.getD st.i 0) then
      skipGo cond f { st with i := st.i + 1 }
    else st

/-- The skip loop of `kmerhash_iterator` at the configured density, run at
the current cursor (its while-condition fails within `n_dna - i` steps). -/
def iterSkip (st : kmerhash) : kmerhash :=
  skipGo (densSkip st.p.dense) (st.dna.length - st.i) st

/-- One absorption at the cursor: the register update for the byte under
the cursor, then `kmer->i++`. -/
def iterAbsorb (st : kmerhash) : kmerhash := absorbStep st.p st (st.dna.getD st.i 0)

/-- The body of `kmerhash_iterator`, with explicit fuel standing for the
self-recursion (each recursive call strictly increases the cursor, so fuel
`n_dna - i` always suffices).  The three C density branches differ only in
the skip test, the bit width and the translation table, so they are taken
through `densSkip`/`absorbStep` (at `dense = 0` the skip loop is absent in
C; here `densSkip 0` is constantly false, so `skipGo` is the identity and
the repeated end-of-input test is redundant, as in the source).  After one
absorption the function recurses while `kmer->i < size[0]` (window priming,
result discarded), then runs both emission loops and returns true. -/
def kmerhash_iterator_go : ℕ → kmerhash → Bool × kmerhash
  | 0, st => (false, st)
  | f + 1, st =>
    if st.i = st.dna.length then (false, st)
    else
      let sts := iterSkip st
      if sts.i = st.dna.length then (false, sts)
      else
        let sta := iterAbsorb sts
        let stb := if sta.i < sta.p.size 0 then (kmerhash_iterator_go f sta).2 else sta
        (true, emitAll stb.p stb)

/-- `kmerhash_iterator`: one top-level call, with adequate fuel. -/
def kmerhash_iterator (st : kmerhash) : Bool × kmerhash :=
  kmerhash_iterator_go (st.dna.length - st.i) st

/-- `m` consecutive calls of `kmerhash_iterator` (the driver loop). -/
def runIter : ℕ → kmerhash → kmerhash
  | 0, st => st
  | m + 1, st => runIter m (kmerhash_iterator st).2

/-- Abstract one-symbol transition on the pair (forward window value,
reverse window value) of a `W`-bit register at `w` bits per symbol: the
forward value shifts left and receives the forward code at the bottom, the
reverse value shifts right and receives the reverse code at the top. -/
def packStep (W w : ℕ) (FS : ℕ × ℕ) (cr : ℕ × ℕ) : ℕ × ℕ :=
  ((FS.1 * 2 ^ w + cr.1) % 2 ^ W, FS.2 / 2 ^ w + cr.2 * 2 ^ (W - w))

/-- The forward window of a state as one number: `forward[1]` is the high
word when two words are in use, otherwise just `forward[0]`. -/
def forwardView (p : kmer_params) (st : kmerhash) : ℕ :=
  if p.n2 ≠ 0 then st.forward1 * 2 ^ 64 + st.forward0 else st.forward0

/-- The reverse window of a state as one number: `reverse[1]` is the high
word when two words are in use (new codes enter at its top), otherwise just
`reverse[1]`. -/
def reverseView (p : kmer_params) (st : kmerhash) : ℕ :=
  if p.n2 ≠ 0 then st.reverse1 * 2 ^ 64 + st.reverse0 else st.reverse1

/-- Reversal of the four bits of a 4-bit membership mask (the complement of
an ambiguity set under A↔T, C↔G). -/
def bitrev4 (c : ℕ) : ℕ := c % 2 * 8 + c / 2 % 2 * 4 + c / 4 % 2 * 2 + c / 8 % 2

/-- The complement of a symbol code at a density: the 1-bit GC class is its
own complement, the 2-bit code complements to `3 - c`, the 4-bit mask
complements by reversing its four bits. -/
def densComp (d c : ℕ) : ℕ := if d = 2 then c else if d = 1 then 3 - c else bitrev4 c

/-- The table index the C expression `(int)(kmer->dna[kmer->i])` computes
from a byte value when `char` is signed (the SysV x86-64 ABI of the
library's primary targets): byte values 128..255 become negative. -/
def charIdx (b : ℕ) : ℤ := if b < 128 then (b : ℤ) else (b : ℤ) - 256

/-- Complement of one ACGT character code (spec notion, used to build the
reverse-complement input of the strand-invariance scenario). -/
def compDNAChar (b : ℕ) : ℕ :=
  if b = 65 then 84 else if b = 67 then 71 else if b = 71 then 67
  else if b = 84 then 65 else b

/-- Exact reverse complement of an ACGT character string (spec notion). -/
def revCompDNA (s : List ℕ) : List ℕ := s.reverse.map compDNAChar

/-- The byte values the source's `initialize_dna_to_bit_tables` assigns
explicitly: A B C D G H K M N O R S T U V W X Y `?` `-`. -/
def dnaAlphabet : List ℕ :=
  [65, 66, 67, 68, 71, 72, 75, 77, 78, 79, 82, 83, 84, 85, 86, 87, 88, 89, 63, 45]

/-- The byte span `[shift2[i2], shift2[i2] + nbytes[n1+i2])` that the
double-word reverse-strand branch reads from the reverse register pair
viewed as a 16-byte buffer (`rev8b + kmer->p->shift2[i]` with
`kmer->p->nbytes[j]` bytes). -/
def rev_span (p : kmer_params) (i2 : ℕ) : ℕ × ℕ :=
  (p.shift2 i2, p.shift2 i2 + p.nbytes (p.n1 + i2))

/-- A concrete stand-in for the pluggable seeded hash, used to instantiate
witnesses (any function of the byte list and the seed would do). -/
def hSample : List ℕ → ℕ → ℕ := fun bs s => bs.foldl (fun a b => a * 256 + b) s

/-- All-zero memory background for the malloc parameters. -/
def zeroMem : ℕ → ℕ := fun _ => 0

/-! ## Generic helper lemmas -/

/-- Reading one cell after a sequence of writes `f[j] := g j` for `j ∈ l`. -/
theorem foldl_update_apply {α : Type} (g : ℕ → α) (l : List ℕ) (f : ℕ → α) (x : ℕ) :
    (l.foldl (fun acc j => Function.update acc j (g j)) f) x
      = if x ∈ l then g x else f x := by
  induction l generalizing f with
  | nil => simp
  | cons a t ih =>
    simp only [List.foldl_cons, ih, List.mem_cons]
    by_cases hx : x ∈ t
    · simp [hx]
    · by_cases hxa : x = a
      · subst hxa; simp [hx]
      · simp [hx, hxa, Function.update_noteq hxa]

/-- A bitwise or of disjoint operands is an addition: the low `w` bits of
`a` are clear and `b` fits in `w` bits. -/
theorem lor_eq_add_of_dvd (w a b : ℕ) (ha : 2 ^ w ∣ a) (hb : b < 2 ^ w) :
    a ||| b = a + b := by
  rcases ha with ⟨q, rfl⟩
  apply Nat.eq_of_testBit_eq
  intro i
  rw [Nat.testBit_lor, Nat.testBit_mul_pow_two_add q hb i, Nat.testBit_mul_pow_two]
  by_cases h : i < w
  · simp [h, Nat.not_le.mpr h]
  · rw [if_neg h]
    rw [Nat.testBit_lt_two_pow
      (lt_of_lt_of_le hb (Nat.pow_le_pow_right (by norm_num) (Nat.le_of_not_lt h)))]
    simp [Nat.le_of_not_lt h]

/-! ## Claim C9: per-mode length counts -/

/-- C9 counterexample: the claim says mode 1 configures 4 window lengths in
total; `new_kmer_params` gives it 6 (n1 = 4 single-word plus n2 = 2
double-word). -/
theorem C9_counterexample :
    (new_kmer_params hSample zeroMem 1).n1 + (new_kmer_params hSample zeroMem 1).n2 = 6 ∧
    ¬((new_kmer_params hSample zeroMem 1).n1 + (new_kmer_params hSample zeroMem 1).n2 = 4) := by
  decide

/-- C9 amended: for modes 0 through 5 in order, `new_kmer_params` yields
2, 6, 8, 7, 11 and 4 configured window lengths respectively; mode 0
("fastest") yields exactly 2, both single-word (n2 = 0), and mode 4
("all 11 kmer sizes") yields exactly 11. -/
theorem C9_amended (xxh : List ℕ → ℕ → ℕ) (mem : ℕ → ℕ) :
    ((new_kmer_params xxh mem 0).n1 + (new_kmer_params xxh mem 0).n2 = 2 ∧
      (new_kmer_params xxh mem 0).n2 = 0) ∧
    (new_kmer_params xxh mem 1).n1 + (new_kmer_params xxh mem 1).n2 = 6 ∧
    (new_kmer_params xxh mem 2).n1 + (new_kmer_params xxh mem 2).n2 = 8 ∧
    (new_kmer_params xxh mem 3).n1 + (new_kmer_params xxh mem 3).n2 = 7 ∧
    (new_kmer_params xxh mem 4).n1 + (new_kmer_params xxh mem 4).n2 = 11 ∧
    (new_kmer_params xxh mem 5).n1 + (new_kmer_params xxh mem 5).n2 = 4 :=
  ⟨⟨rfl, rfl⟩, rfl, rfl, rfl, rfl, rfl⟩

/-! ## Claim C10: out-of-range mode fallback -/

/-- C10: every mode outside 0..5 yields, apart from the recorded mode
field, exactly the configuration of the documented mode-3 default preset
("phylogenetics (short kmers)"): the C `switch` routes `default` and
`case 3` to the same row-4 / dense-1 branch. -/
theorem C10_out_of_range_fallback (xxh : List ℕ → ℕ → ℕ) (mem : ℕ → ℕ) (mode : ℤ)
    (h : mode < 0 ∨ 5 < mode) :
    new_kmer_params xxh mem mode
      = { new_kmer_params xxh mem 3 with kmer_class_mode := mode } := by
  have h0 : ¬(mode = 0) := by omega
  have h1 : ¬(mode = 1) := by omega
  have h2 : ¬(mode = 2) := by omega
  have h4 : ¬(mode = 4) := by omega
  have h5 : ¬(mode = 5) := by omega
  simp only [new_kmer_params, if_neg h0, if_neg h1, if_neg h2, if_neg h4, if_neg h5]
  rfl

/-- C10 witness at the concrete out-of-range mode 17. -/
theorem C10_witness :
    ((17 : ℤ) < 0 ∨ 5 < (17 : ℤ)) ∧
    new_kmer_params hSample zeroMem 17
      = { new_kmer_params hSample zeroMem 3 with kmer_class_mode := 17 } :=
  ⟨Or.inr (by norm_num),
    C10_out_of_range_fallback hSample zeroMem 17 (Or.inr (by norm_num))⟩

/-! ## Claim C5: seed assignment -/

/-- C5 evaluation at mode 1 (n1 = 4, n2 = 2): the second catalogue loop of
`new_kmer_params` stores the transformed secondary seed at `seed[j]`
instead of `seed[j + n1]`, so the single-word slot 0 is clobbered with
`_tbl_seed[2] >> 2 + 0x420314a1d` (instead of keeping `_tbl_seed[0] =
0x9040a6`), while slot 4 — the slot `kmerhash_iterator` actually reads when
hashing the first double-word length — still holds whatever the malloc
background contained (0 under one background, 99 under another), i.e. it is
never initialized. -/
theorem C5_eval :
    (new_kmer_params hSample zeroMem 1).n1 = 4 ∧
    (new_kmer_params hSample zeroMem 1).seed 4 = 0 ∧
    (new_kmer_params hSample (fun _ => 99) 1).seed 4 = 99 ∧
    (new_kmer_params hSample zeroMem 1).seed 0 = 0x50edd67d / 4 + 0x420314a1d ∧
    ¬((new_kmer_params hSample zeroMem 1).seed 0 = 0x9040a6) := by
  decide

/-! ## Claim C6: double-word reverse tie-break byte offset -/

/-- C6 evaluation at mode 1, double-word index 0: the byte span the
reverse-strand branch reads from the 16-byte reverse register pair starts
at byte offset `shift2[0] = 32` (the *bit* shift value used as a byte
count) and runs to byte 44, far outside the 16-byte buffer. -/
theorem C6_eval :
    rev_span (new_kmer_params hSample zeroMem 1) 0 = (32, 44) ∧
    ¬((rev_span (new_kmer_params hSample zeroMem 1) 0).2 ≤ 16) := by
  decide

/-! ## Claim C7: totality of symbol lookup -/

/-- C7 evaluation: under the (signed-char) cast the source applies to each
DNA byte before indexing the 256-entry tables, byte values at or above 128
produce negative indices — byte 0xFF indexes at -1, byte 200 at -56 — so
the lookup is not an in-bounds table access for those bytes, while ASCII
bytes (e.g. 'A' = 65) index in range. -/
theorem C7_eval :
    charIdx 255 = -1 ∧ charIdx 200 = -56 ∧ ¬(0 ≤ charIdx 255) ∧
    charIdx 65 = 65 ∧ (0 ≤ charIdx 65 ∧ charIdx 65 < 256) := by
  decide

/-! ## Claim C8 counterexample -/

/-- C8 counterexample: 'Z' (byte 90) is outside the defined DNA/ambiguity
alphabet, and the 4-bit table maps it to the all-zeros pair `(0, 0)` (the
zero-filled default, same as the gap character), not to the all-ones
"matches any base" pattern `(15, 15)` the claim states. -/
theorem C8_counterexample :
    (90 ∉ dnaAlphabet) ∧ dna_in_4_bits 90 = (0, 0) ∧
    ¬(dna_in_4_bits 90 = (15, 15)) := by
  decide

/-! ## Claim C1: strand invariance fails at catalogue index 5 -/

/-- C1 evaluation: mode 3 (2-bit density, seven single-word lengths, sizes
8..32) run over the 28-symbol input AAAC·A²⁴ and over its exact reverse
complement T²⁴·GTTT.  Both runs are driven to the end of the input
(cursor 28), so the final emission for length index 5 (k = 28 symbols =
`size[5]`) covers the whole input in both runs — the mirrored window.  The
emitted canonical raw value is 0 in the forward run but nonzero in the
reverse-complement run: `_tbl_mask[5]` is only 48 bits wide while
`_tbl_shift[5]`/`_tbl_nbyte[5]` describe a 56-bit window, so the forward
candidate loses its top byte while the reverse candidate keeps it, and the
minimum is taken between inconsistently truncated values. -/
theorem C1_eval :
    revCompDNA ([65, 65, 65, 67] ++ List.replicate 24 65)
      = List.replicate 24 84 ++ [71, 84, 84, 84] ∧
    (new_kmer_params hSample zeroMem 3).size 5 = 28 ∧
    (runIter 21 (link_kmerhash_to_dna_sequence (new_kmerhash hSample zeroMem zeroMem 3)
      ([65, 65, 65, 67] ++ List.replicate 24 65))).i = 28 ∧
    (runIter 21 (link_kmerhash_to_dna_sequence (new_kmerhash hSample zeroMem zeroMem 3)
      (List.replicate 24 84 ++ [71, 84, 84, 84]))).i = 28 ∧
    (runIter 21 (link_kmerhash_to_dna_sequence (new_kmerhash hSample zeroMem zeroMem 3)
      ([65, 65, 65, 67] ++ List.replicate 24 65))).kmer 5 = 0 ∧
    ¬((runIter 21 (link_kmerhash_to_dna_sequence (new_kmerhash hSample zeroMem zeroMem 3)
      (List.replicate 24 84 ++ [71, 84, 84, 84]))).kmer 5 = 0) := by
  decide

/-! ## State-component bookkeeping for the emission loops -/

/-- `emitStep1` touches only the `kmer` and `hash` arrays. -/
theorem emitStep1_regs (p : kmer_params) (s : kmerhash) (j : ℕ) :
    (emitStep1 p s j).forward0 = s.forward0 ∧ (emitStep1 p s j).forward1 = s.forward1 ∧
    (emitStep1 p s j).reverse0 = s.reverse0 ∧ (emitStep1 p s j).reverse1 = s.reverse1 ∧
    (emitStep1 p s j).i = s.i ∧ (emitStep1 p s j).dna = s.dna ∧ (emitStep1 p s j).p = s.p := by
  simp only [emitStep1]
  split <;> exact ⟨rfl, rfl, rfl, rfl, rfl, rfl, rfl⟩

/-- `emitStep2` touches only the `hash` array. -/
theorem emitStep2_regs (p : kmer_params) (s : kmerhash) (j : ℕ) :
    (emitStep2 p s j).forward0 = s.forward0 ∧ (emitStep2 p s j).forward1 = s.forward1 ∧
    (emitStep2 p s j).reverse0 = s.reverse0 ∧ (emitStep2 p s j).reverse1 = s.reverse1 ∧
    (emitStep2 p s j).i = s.i ∧ (emitStep2 p s j).dna = s.dna ∧ (emitStep2 p s j).p = s.p ∧
    (emitStep2 p s j).kmer = s.kmer := by
  simp only [emitStep2]
  split <;> exact ⟨rfl, rfl, rfl, rfl, rfl, rfl, rfl, rfl⟩

/-- The single-word emission loop leaves registers, cursor, buffer and
parameters unchanged. -/
theorem emit1_fields (p : kmer_params) (l : List ℕ) : ∀ st : kmerhash,
    (l.foldl (emitStep1 p) st).forward0 = st.forward0 ∧
    (l.foldl (emitStep1 p) st).forward1 = st.forward1 ∧
    (l.foldl (emitStep1 p) st).reverse0 = st.reverse0 ∧
    (l.foldl (emitStep1 p) st).reverse1 = st.reverse1 ∧
    (l.foldl (emitStep1 p) st).i = st.i ∧
    (l.foldl (emitStep1 p) st).dna = st.dna ∧
    (l.foldl (emitStep1 p) st).p = st.p := by
  induction l with
  | nil => intro st; exact ⟨rfl, rfl, rfl, rfl, rfl, rfl, rfl⟩
  | cons a t ih =>
    intro st
    rw [List.foldl_cons]
    rcases ih (emitStep1 p st a) with ⟨h1, h2, h3, h4, h5, h6, h7⟩
    rcases emitStep1_regs p st a with ⟨g1, g2, g3, g4, g5, g6, g7⟩
    exact ⟨h1.trans g1, h2.trans g2, h3.trans g3, h4.trans g4, h5.trans g5,
      h6.trans g6, h7.trans g7⟩

/-- The double-word emission loop leaves registers, cursor, buffer,
parameters and the raw `kmer` array unchanged. -/
theorem emit2_fields (p : kmer_params) (l : List ℕ) : ∀ st : kmerhash,
    (l.foldl (emitStep2 p) st).forward0 = st.forward0 ∧
    (l.foldl (emitStep2 p) st).forward1 = st.forward1 ∧
    (l.foldl (emitStep2 p) st).reverse0 = st.reverse0 ∧
    (l.foldl (emitStep2 p) st).reverse1 = st.reverse1 ∧
    (l.foldl (emitStep2 p) st).i = st.i ∧
    (l.foldl (emitStep2 p) st).dna = st.dna ∧
    (l.foldl (emitStep2 p) st).p = st.p ∧
    (l.foldl (emitStep2 p) st).kmer = st.kmer := by
  induction l with
  | nil => intro st; exact ⟨rfl, rfl, rfl, rfl, rfl, rfl, rfl, rfl⟩
  | cons a t ih =>
    intro st
    rw [List.foldl_cons]
    rcases ih (emitStep2 p st a) with ⟨h1, h2, h3, h4, h5, h6, h7, h8⟩
    rcases emitStep2_regs p st a with ⟨g1, g2, g3, g4, g5, g6, g7, g8⟩
    exact ⟨h1.trans g1, h2.trans g2, h3.trans g3, h4.trans g4, h5.trans g5,
      h6.trans g6, h7.trans g7, h8.trans g8⟩

/-- `emitAll` leaves registers, cursor, buffer and parameters unchanged. -/
theorem emitAll_fields (p : kmer_params) (st : kmerhash) :
    (emitAll p st).forward0 = st.forward0 ∧ (emitAll p st).forward1 = st.forward1 ∧
    (emitAll p st).reverse0 = st.reverse0 ∧ (emitAll p st).reverse1 = st.reverse1 ∧
    (emitAll p st).i = st.i ∧ (emitAll p st).dna = st.dna ∧ (emitAll p st).p = st.p := by
  have h2 := emit2_fields p (List.range p.n2) (emit1 p st)
  have h1 := emit1_fields p (List.range p.n1) st
  exact ⟨h2.1.trans h1.1, h2.2.1.trans h1.2.1, h2.2.2.1.trans h1.2.2.1,
    h2.2.2.2.1.trans h1.2.2.2.1, h2.2.2.2.2.1.trans h1.2.2.2.2.1,
    h2.2.2.2.2.2.1.trans h1.2.2.2.2.2.1, h2.2.2.2.2.2.2.1.trans h1.2.2.2.2.2.2⟩

/-- Effect of one single-word emission step on the raw `kmer` cell `idx`. -/
theorem emitStep1_kmer (p : kmer_params) (s : kmerhash) (a idx : ℕ) :
    (emitStep1 p s a).kmer idx
      = if idx = a ∧ p.size a ≤ s.i then
          (if s.reverse1 >>> p.shift1 a < s.forward0 &&& p.mask1 a
           then s.reverse1 >>> p.shift1 a
           else s.forward0 &&& p.mask1 a)
        else s.kmer idx := by
  simp only [emitStep1]
  split
  · rename_i hg
    by_cases he : idx = a
    · subst he; simp [hg]
    · simp [he, Function.update_noteq he]
  · rename_i hg
    rw [if_neg (fun hc => hg hc.2)]

/-- Effect of one single-word emission step on the `hash` cell `idx`. -/
theorem emitStep1_hash (p : kmer_params) (s : kmerhash) (a idx : ℕ) :
    (emitStep1 p s a).hash idx
      = if idx = a ∧ p.size a ≤ s.i then
          p.hashfunction
            (leBytes (p.nbytes a)
              (if s.reverse1 >>> p.shift1 a < s.forward0 &&& p.mask1 a
               then s.reverse1 >>> p.shift1 a
               else s.forward0 &&& p.mask1 a))
            (p.seed a)
        else s.hash idx := by
  simp only [emitStep1]
  split
  · rename_i hg
    by_cases he : idx = a
    · subst he; simp [hg]
    · simp [he, Function.update_noteq he]
  · rename_i hg
    rw [if_neg (fun hc => hg hc.2)]

/-- Raw `kmer` cell after the whole single-word loop: written exactly when
`idx` is a visited index whose fill requirement is met, with the canonical
value computed from the (loop-invariant) registers. -/
theorem foldl_emitStep1_kmer (p : kmer_params) (l : List ℕ) : ∀ (st : kmerhash) (idx : ℕ),
    (l.foldl (emitStep1 p) st).kmer idx
      = if idx ∈ l ∧ p.size idx ≤ st.i then
          (if st.reverse1 >>> p.shift1 idx < st.forward0 &&& p.mask1 idx
           then st.reverse1 >>> p.shift1 idx
           else st.forward0 &&& p.mask1 idx)
        else st.kmer idx := by
  induction l with
  | nil => intro st idx; simp
  | cons a t ih =>
    intro st idx
    rw [List.foldl_cons, ih]
    rcases emitStep1_regs p st a with ⟨g1, _, _, g4, g5, _, _⟩
    rw [g1, g4, g5, emitStep1_kmer]
    by_cases hfill : p.size idx ≤ st.i
    · by_cases he : idx = a
      · subst he
        simp [hfill, List.mem_cons]
      · by_cases hmem : idx ∈ t
        · simp [hfill, he, hmem, List.mem_cons]
        · simp [hfill, he, hmem, List.mem_cons]
    · simp only [List.mem_cons]
      rw [if_neg (fun hc => hfill hc.2),
        if_neg (fun hc : idx = a ∧ p.size a ≤ st.i => hfill (by rw [hc.1]; exact hc.2)),
        if_neg (fun hc => hfill hc.2)]

/-- `hash` cell after the whole single-word loop. -/
theorem foldl_emitStep1_hash (p : kmer_params) (l : List ℕ) : ∀ (st : kmerhash) (idx : ℕ),
    (l.foldl (emitStep1 p) st).hash idx
      = if idx ∈ l ∧ p.size idx ≤ st.i then
          p.hashfunction
            (leBytes (p.nbytes idx)
              (if st.reverse1 >>> p.shift1 idx < st.forward0 &&& p.mask1 idx
               then st.reverse1 >>> p.shift1 idx
               else st.forward0 &&& p.mask1 idx))
            (p.seed idx)
        else st.hash idx := by
  induction l with
  | nil => intro st idx; simp
  | cons a t ih =>
    intro st idx
    rw [List.foldl_cons, ih]
    rcases emitStep1_regs p st a with ⟨g1, _, _, g4, g5, _, _⟩
    rw [g1, g4, g5, emitStep1_hash]
    by_cases hfill : p.size idx ≤ st.i
    · by_cases he : idx = a
      · subst he
        simp [hfill, List.mem_cons]
      · by_cases hmem : idx ∈ t
        · simp [hfill, he, hmem, List.mem_cons]
        · simp [hfill, he, hmem, List.mem_cons]
    · simp only [List.mem_cons]
      rw [if_neg (fun hc => hfill hc.2),
        if_neg (fun hc : idx = a ∧ p.size a ≤ st.i => hfill (by rw [hc.1]; exact hc.2)),
        if_neg (fun hc => hfill hc.2)]

/-- One double-word emission step never writes a `hash` cell whose fill
requirement is unmet, nor any single-word cell (`idx < n1`). -/
theorem emitStep2_hash_stable (p : kmer_params) (s : kmerhash) (i2 idx : ℕ)
    (h : ¬(p.size idx ≤ s.i) ∨ idx < p.n1) :
    (emitStep2 p s i2).hash idx = s.hash idx := by
  simp only [emitStep2]
  split
  · rename_i hg
    by_cases he : idx = p.n1 + i2
    · rcases h with h | h
      · exact absurd (he ▸ hg) h
      · omega
    · simp [Function.update_noteq he]
  · rfl

/-- The double-word loop never writes a `hash` cell whose fill requirement
is unmet, nor any single-word cell. -/
theorem foldl_emitStep2_hash_stable (p : kmer_params) (l : List ℕ) : ∀ (st : kmerhash) (idx : ℕ),
    (¬(p.size idx ≤ st.i) ∨ idx < p.n1) →
    (l.foldl (emitStep2 p) st).hash idx = st.hash idx := by
  induction l with
  | nil => intro st idx _; rfl
  | cons a t ih =>
    intro st idx h
    rw [List.foldl_cons]
    rcases emitStep2_regs p st a with ⟨_, _, _, _, g5, _, _, _⟩
    rw [ih (emitStep2 p st a) idx (by rw [g5]; exact h), emitStep2_hash_stable p st a idx h]

/-- Effect of one double-word emission step on the `hash` cell `idx`. -/
theorem emitStep2_hash (p : kmer_params) (s : kmerhash) (a idx : ℕ) :
    (emitStep2 p s a).hash idx
      = if idx = p.n1 + a ∧ p.size (p.n1 + a) ≤ s.i then
          p.hashfunction
            (if s.forward0 < s.reverse1 then
               (leBytes 8 s.forward0 ++ leBytes 8 s.forward1).take (p.nbytes (p.n1 + a))
             else if s.forward0 = s.reverse1 ∧
                 (s.forward1 &&& p.mask2 a) < (s.reverse0 >>> p.shift2 a) then
               (leBytes 8 s.forward0 ++ leBytes 8 s.forward1).take (p.nbytes (p.n1 + a))
             else
               ((leBytes 8 s.reverse0 ++ leBytes 8 s.reverse1).drop (p.shift2 a)).take
                 (p.nbytes (p.n1 + a)))
            (p.seed (p.n1 + a))
        else s.hash idx := by
  simp only [emitStep2]
  split
  · rename_i hg
    by_cases he : idx = p.n1 + a
    · subst he
      simp [hg]
    · simp [he, Function.update_noteq he]
  · rename_i hg
    rw [if_neg (fun hc => hg hc.2)]

/-- `hash` cell `n1 + i2` after the whole double-word loop: written exactly
when `i2` is a visited loop index whose fill requirement is met, with the
byte selection computed from the (loop-invariant) registers. -/
theorem foldl_emitStep2_hash (p : kmer_params) (l : List ℕ) : ∀ (st : kmerhash) (i2 : ℕ),
    (l.foldl (emitStep2 p) st).hash (p.n1 + i2)
      = if i2 ∈ l ∧ p.size (p.n1 + i2) ≤ st.i then
          p.hashfunction
            (if st.forward0 < st.reverse1 then
               (leBytes 8 st.forward0 ++ leBytes 8 st.forward1).take (p.nbytes (p.n1 + i2))
             else if st.forward0 = st.reverse1 ∧
                 (st.forward1 &&& p.mask2 i2) < (st.reverse0 >>> p.shift2 i2) then
               (leBytes 8 st.forward0 ++ leBytes 8 st.forward1).take (p.nbytes (p.n1 + i2))
             else
               ((leBytes 8 st.reverse0 ++ leBytes 8 st.reverse1).drop (p.shift2 i2)).take
                 (p.nbytes (p.n1 + i2)))
            (p.seed (p.n1 + i2))
        else st.hash (p.n1 + i2) := by
  induction l with
  | nil => intro st i2; simp
  | cons a t ih =>
    intro st i2
    rw [List.foldl_cons, ih]
    rcases emitStep2_regs p st a with ⟨g1, g2, g3, g4, g5, _, _, _⟩
    rw [g1, g2, g3, g4, g5, emitStep2_hash]
    by_cases hfill : p.size (p.n1 + i2) ≤ st.i
    · by_cases he : i2 = a
      · subst he
        simp [hfill, List.mem_cons]
      · have hne : ¬(p.n1 + i2 = p.n1 + a) := by omega
        by_cases hmem : i2 ∈ t
        · simp [hfill, he, hne, hmem, List.mem_cons]
        · simp [hfill, he, hne, hmem, List.mem_cons]
    · simp only [List.mem_cons]
      rw [if_neg (fun hc => hfill hc.2),
        if_neg (fun hc : p.n1 + i2 = p.n1 + a ∧ p.size (p.n1 + a) ≤ st.i =>
          hfill (by rw [show i2 = a from by omega]; exact hc.2)),
        if_neg (fun hc => hfill hc.2)]

/-! ## Skip-loop and absorption bookkeeping -/

/-- The skip loop only moves the cursor forward. -/
theorem skipGo_fields (cond : ℕ → Bool) : ∀ (f : ℕ) (st : kmerhash),
    (skipGo cond f st).forward0 = st.forward0 ∧
    (skipGo cond f st).forward1 = st.forward1 ∧
    (skipGo cond f st).reverse0 = st.reverse0 ∧
    (skipGo cond f st).reverse1 = st.reverse1 ∧
    (skipGo cond f st).dna = st.dna ∧
    (skipGo cond f st).p = st.p ∧
    (skipGo cond f st).kmer = st.kmer ∧
    (skipGo cond f st).hash = st.hash ∧
    st.i ≤ (skipGo cond f st).i := by
  intro f
  induction f with
  | zero => intro st; exact ⟨rfl, rfl, rfl, rfl, rfl, rfl, rfl, rfl, le_refl _⟩
  | succ f ih =>
    intro st
    unfold skipGo
    split
    · rcases ih { st with i := st.i + 1 } with ⟨h1, h2, h3, h4, h5, h6, h7, h8, h9⟩
      exact ⟨h1, h2, h3, h4, h5, h6, h7, h8, le_trans (Nat.le_succ _) h9⟩
    · exact ⟨rfl, rfl, rfl, rfl, rfl, rfl, rfl, rfl, le_refl _⟩

/-- The skip loop is the identity when its condition fails at entry. -/
theorem skipGo_id (cond : ℕ → Bool) (f : ℕ) (st : kmerhash)
    (h : ¬(st.i < st.dna.length ∧ cond (st.dna.getD st.i 0))) :
    skipGo cond f st = st := by
  cases f with
  | zero => rfl
  | succ f => unfold skipGo; rw [if_neg h]

/-- The skip loop is the identity on a buffer with no skippable byte. -/
theorem skipGo_valid (cond : ℕ → Bool) (f : ℕ) (st : kmerhash)
    (hv : ∀ b ∈ st.dna, cond b = false) :
    skipGo cond f st = st := by
  apply skipGo_id
  rintro ⟨hlt, hc⟩
  have hm : st.dna.getD st.i 0 ∈ st.dna := by
    rw [List.getD_eq_getElem st.dna 0 hlt]
    exact List.getElem_mem hlt
  rw [hv _ hm] at hc
  simp at hc

/-- The register update touches neither cursor, buffer, parameters nor
the output arrays. -/
theorem absorbW_fields (u : Bool) (w : ℕ) (cr : ℕ × ℕ) (st : kmerhash) :
    (absorbW u w cr st).i = st.i ∧ (absorbW u w cr st).dna = st.dna ∧
    (absorbW u w cr st).p = st.p ∧ (absorbW u w cr st).kmer = st.kmer ∧
    (absorbW u w cr st).hash = st.hash := by
  cases u <;> exact ⟨rfl, rfl, rfl, rfl, rfl⟩

/-- A full absorption advances the cursor by one and touches neither
buffer, parameters nor the output arrays. -/
theorem absorbStep_fields (p : kmer_params) (st : kmerhash) (b : ℕ) :
    (absorbStep p st b).i = st.i + 1 ∧ (absorbStep p st b).dna = st.dna ∧
    (absorbStep p st b).p = st.p ∧ (absorbStep p st b).kmer = st.kmer ∧
    (absorbStep p st b).hash = st.hash := by
  rcases absorbW_fields (p.n2 != 0) (densBits p.dense) (densCode p.dense b) st
    with ⟨_, h2, h3, h4, h5⟩
  exact ⟨rfl, h2, h3, h4, h5⟩

/-! ## Iterator bookkeeping -/

/-- One-step unfolding of the iterator body at positive fuel. -/
theorem iterGo_succ (f : ℕ) (st : kmerhash) :
    kmerhash_iterator_go (f + 1) st
      = if st.i = st.dna.length then (false, st)
        else if (iterSkip st).i = st.dna.length then (false, iterSkip st)
        else
          (true,
            emitAll
              (if (iterAbsorb (iterSkip st)).i < (iterAbsorb (iterSkip st)).p.size 0
                then (kmerhash_iterator_go f (iterAbsorb (iterSkip st))).2
                else iterAbsorb (iterSkip st)).p
              (if (iterAbsorb (iterSkip st)).i < (iterAbsorb (iterSkip st)).p.size 0
                then (kmerhash_iterator_go f (iterAbsorb (iterSkip st))).2
                else iterAbsorb (iterSkip st))) := rfl

/-- The iterator never changes buffer or parameters. -/
theorem iterGo_dna_p : ∀ (f : ℕ) (st : kmerhash),
    (kmerhash_iterator_go f st).2.dna = st.dna ∧
    (kmerhash_iterator_go f st).2.p = st.p := by
  intro f
  induction f with
  | zero => intro st; exact ⟨rfl, rfl⟩
  | succ f ih =>
    intro st
    rw [iterGo_succ]
    rcases skipGo_fields (densSkip st.p.dense) (st.dna.length - st.i) st
      with ⟨_, _, _, _, s5, s6, _, _, _⟩
    by_cases h1 : st.i = st.dna.length
    · rw [if_pos h1]; exact ⟨rfl, rfl⟩
    · rw [if_neg h1]
      by_cases h2 : (iterSkip st).i = st.dna.length
      · rw [if_pos h2]; exact ⟨s5, s6⟩
      · rw [if_neg h2]
        rcases absorbStep_fields (iterSkip st).p (iterSkip st)
            ((iterSkip st).dna.getD (iterSkip st).i 0) with ⟨_, a2, a3, _, _⟩
        have hadna : (iterAbsorb (iterSkip st)).dna = st.dna := by
          rw [iterAbsorb, a2]; exact s5
        have hap : (iterAbsorb (iterSkip st)).p = st.p := by
          rw [iterAbsorb, a3]; exact s6
        by_cases h3 : (iterAbsorb (iterSkip st)).i < (iterAbsorb (iterSkip st)).p.size 0
        · rw [if_pos h3]
          rcases ih (iterAbsorb (iterSkip st)) with ⟨i1, i2⟩
          rcases emitAll_fields (kmerhash_iterator_go f (iterAbsorb (iterSkip st))).2.p
              (kmerhash_iterator_go f (iterAbsorb (iterSkip st))).2 with ⟨_, _, _, _, _, e6, e7⟩
          exact ⟨e6.trans (i1.trans hadna), e7.trans (i2.trans hap)⟩
        · rw [if_neg h3]
          rcases emitAll_fields (iterAbsorb (iterSkip st)).p (iterAbsorb (iterSkip st))
            with ⟨_, _, _, _, _, e6, e7⟩
          exact ⟨e6.trans hadna, e7.trans hap⟩

/-- The iterator never moves the cursor backwards. -/
theorem iterGo_i_mono : ∀ (f : ℕ) (st : kmerhash),
    st.i ≤ (kmerhash_iterator_go f st).2.i := by
  intro f
  induction f with
  | zero => intro st; exact le_refl _
  | succ f ih =>
    intro st
    rw [iterGo_succ]
    rcases skipGo_fields (densSkip st.p.dense) (st.dna.length - st.i) st
      with ⟨_, _, _, _, _, _, _, _, s9⟩
    by_cases h1 : st.i = st.dna.length
    · rw [if_pos h1]
    · rw [if_neg h1]
      by_cases h2 : (iterSkip st).i = st.dna.length
      · rw [if_pos h2]; exact s9
      · rw [if_neg h2]
        have hsa : st.i ≤ (iterAbsorb (iterSkip st)).i := by
          rw [iterAbsorb,
            (absorbStep_fields (iterSkip st).p (iterSkip st)
              ((iterSkip st).dna.getD (iterSkip st).i 0)).1]
          exact le_trans s9 (Nat.le_succ _)
        by_cases h3 : (iterAbsorb (iterSkip st)).i < (iterAbsorb (iterSkip st)).p.size 0
        · rw [if_pos h3]
          rcases emitAll_fields (kmerhash_iterator_go f (iterAbsorb (iterSkip st))).2.p
              (kmerhash_iterator_go f (iterAbsorb (iterSkip st))).2
            with ⟨_, _, _, _, e5, _, _⟩
          rw [e5]
          exact le_trans hsa (ih _)
        · rw [if_neg h3]
          rcases emitAll_fields (iterAbsorb (iterSkip st)).p (iterAbsorb (iterSkip st))
            with ⟨_, _, _, _, e5, _, _⟩
          rw [e5]
          exact hsa

/-- Convenience unfoldings of `iterSkip`. -/
theorem iterSkip_fields (st : kmerhash) :
    (iterSkip st).forward0 = st.forward0 ∧ (iterSkip st).forward1 = st.forward1 ∧
    (iterSkip st).reverse0 = st.reverse0 ∧ (iterSkip st).reverse1 = st.reverse1 ∧
    (iterSkip st).dna = st.dna ∧ (iterSkip st).p = st.p ∧
    (iterSkip st).kmer = st.kmer ∧ (iterSkip st).hash = st.hash ∧
    st.i ≤ (iterSkip st).i :=
  skipGo_fields (densSkip st.p.dense) (st.dna.length - st.i) st

/-- Convenience unfoldings of `iterAbsorb`. -/
theorem iterAbsorb_fields (st : kmerhash) :
    (iterAbsorb st).i = st.i + 1 ∧ (iterAbsorb st).dna = st.dna ∧
    (iterAbsorb st).p = st.p ∧ (iterAbsorb st).kmer = st.kmer ∧
    (iterAbsorb st).hash = st.hash :=
  absorbStep_fields st.p st (st.dna.getD st.i 0)

/-- The emission loops leave a raw cell with unmet fill requirement alone. -/
theorem emitAll_kmer_stable (p : kmer_params) (s : kmerhash) (idx : ℕ)
    (h : ¬(p.size idx ≤ s.i)) : (emitAll p s).kmer idx = s.kmer idx := by
  rw [emitAll, emit2,
    congrFun (emit2_fields p (List.range p.n2) (emit1 p s)).2.2.2.2.2.2.2 idx,
    emit1, foldl_emitStep1_kmer, if_neg (fun hc => h hc.2)]

/-- The emission loops leave a hash cell with unmet fill requirement alone. -/
theorem emitAll_hash_stable (p : kmer_params) (s : kmerhash) (idx : ℕ)
    (h : ¬(p.size idx ≤ s.i)) : (emitAll p s).hash idx = s.hash idx := by
  have hi : (emit1 p s).i = s.i := by
    rw [emit1]; exact (emit1_fields p (List.range p.n1) s).2.2.2.2.1
  rw [emitAll, emit2,
    foldl_emitStep2_hash_stable p (List.range p.n2) (emit1 p s) idx
      (Or.inl (by rw [hi]; exact h)),
    emit1, foldl_emitStep1_hash, if_neg (fun hc => h hc.2)]

/-- While the final cursor is still short of a length's fill requirement,
one iterator call leaves that length's outputs untouched (every write in
either emission loop is guarded by `kmer->i >= size[..]` and the cursor
never decreases). -/
theorem iterGo_no_write : ∀ (f : ℕ) (st : kmerhash) (idx : ℕ),
    (kmerhash_iterator_go f st).2.i < st.p.size idx →
    (kmerhash_iterator_go f st).2.kmer idx = st.kmer idx ∧
    (kmerhash_iterator_go f st).2.hash idx = st.hash idx := by
  intro f
  induction f with
  | zero => intro st idx _; exact ⟨rfl, rfl⟩
  | succ f ih =>
    intro st idx hlt
    rcases iterSkip_fields st with ⟨_, _, _, _, _, s6, s7, s8, _⟩
    rcases iterAbsorb_fields (iterSkip st) with ⟨_, _, a3, a4, a5⟩
    have hap : (iterAbsorb (iterSkip st)).p = st.p := by rw [a3, s6]
    rw [iterGo_succ] at hlt ⊢
    by_cases h1 : st.i = st.dna.length
    · rw [if_pos h1]; exact ⟨rfl, rfl⟩
    · rw [if_neg h1] at hlt ⊢
      by_cases h2 : (iterSkip st).i = st.dna.length
      · rw [if_pos h2]; exact ⟨congrFun s7 idx, congrFun s8 idx⟩
      · rw [if_neg h2] at hlt ⊢
        by_cases h3 : (iterAbsorb (iterSkip st)).i < (iterAbsorb (iterSkip st)).p.size 0
        · rw [if_pos h3] at hlt ⊢
          rcases iterGo_dna_p f (iterAbsorb (iterSkip st)) with ⟨_, gp⟩
          have hpr : (kmerhash_iterator_go f (iterAbsorb (iterSkip st))).2.p = st.p := by
            rw [gp, hap]
          rcases emitAll_fields (kmerhash_iterator_go f (iterAbsorb (iterSkip st))).2.p
              (kmerhash_iterator_go f (iterAbsorb (iterSkip st))).2
            with ⟨_, _, _, _, e5, _, _⟩
          rw [e5] at hlt
          have hrec := ih (iterAbsorb (iterSkip st)) idx (by rw [hap]; exact hlt)
          have hns : ¬((kmerhash_iterator_go f (iterAbsorb (iterSkip st))).2.p.size idx
              ≤ (kmerhash_iterator_go f (iterAbsorb (iterSkip st))).2.i) := by
            rw [hpr]; omega
          constructor
          · rw [emitAll_kmer_stable _ _ idx hns, hrec.1, congrFun a4 idx, congrFun s7 idx]
          · rw [emitAll_hash_stable _ _ idx hns, hrec.2, congrFun a5 idx, congrFun s8 idx]
        · rw [if_neg h3] at hlt ⊢
          rcases emitAll_fields (iterAbsorb (iterSkip st)).p (iterAbsorb (iterSkip st))
            with ⟨_, _, _, _, e5, _, _⟩
          rw [e5] at hlt
          have hns : ¬((iterAbsorb (iterSkip st)).p.size idx ≤ (iterAbsorb (iterSkip st)).i) := by
            rw [hap]; omega
          constructor
          · rw [emitAll_kmer_stable _ _ idx hns, congrFun a4 idx, congrFun s7 idx]
          · rw [emitAll_hash_stable _ _ idx hns, congrFun a5 idx, congrFun s8 idx]

/-- A true-returning call ends in the emission loops applied to the final
state (same parameters as the caller's). -/
theorem iterGo_true (f : ℕ) (st : kmerhash)
    (h : (kmerhash_iterator_go f st).1 = true) :
    ∃ stb : kmerhash,
      kmerhash_iterator_go f st = (true, emitAll stb.p stb) ∧ stb.p = st.p := by
  cases f with
  | zero => exact absurd h (by simp [kmerhash_iterator_go])
  | succ f =>
    rw [iterGo_succ] at h ⊢
    by_cases h1 : st.i = st.dna.length
    · rw [if_pos h1] at h; exact absurd h (by simp)
    · rw [if_neg h1] at h ⊢
      by_cases h2 : (iterSkip st).i = st.dna.length
      · rw [if_pos h2] at h; exact absurd h (by simp)
      · rw [if_neg h2]
        by_cases h3 : (iterAbsorb (iterSkip st)).i < (iterAbsorb (iterSkip st)).p.size 0
        · rw [if_pos h3]
          refine ⟨(kmerhash_iterator_go f (iterAbsorb (iterSkip st))).2, rfl, ?_⟩
          rw [(iterGo_dna_p f _).2, (iterAbsorb_fields _).2.2.1, (iterSkip_fields st).2.2.2.2.2.1]
        · rw [if_neg h3]
          refine ⟨iterAbsorb (iterSkip st), rfl, ?_⟩
          rw [(iterAbsorb_fields _).2.2.1, (iterSkip_fields st).2.2.2.2.2.1]

/-- The conditional assignment `if (hr < hf) hf = hr` is the minimum. -/
theorem ite_lt_min (a b : ℕ) : (if b < a then b else a) = min a b := by
  rcases lt_or_ge b a with h | h
  · rw [if_pos h, Nat.min_eq_right (le_of_lt h)]
  · rw [if_neg (not_lt.mpr h), Nat.min_eq_left h]

/-- Core single-word emission fact: a true-returning call with the fill
requirement of single-word length `idx` met stores the canonical minimum
in `kmer[idx]` and its seeded hash in `hash[idx]`. -/
theorem iter_true_emits_single (st : kmerhash) (idx : ℕ)
    (ht : (kmerhash_iterator st).1 = true)
    (hidx : idx < st.p.n1)
    (hfill : st.p.size idx ≤ (kmerhash_iterator st).2.i) :
    (kmerhash_iterator st).2.kmer idx
        = min ((kmerhash_iterator st).2.forward0 &&& st.p.mask1 idx)
              ((kmerhash_iterator st).2.reverse1 >>> st.p.shift1 idx) ∧
    (kmerhash_iterator st).2.hash idx
        = st.p.hashfunction
            (leBytes (st.p.nbytes idx)
              (min ((kmerhash_iterator st).2.forward0 &&& st.p.mask1 idx)
                   ((kmerhash_iterator st).2.reverse1 >>> st.p.shift1 idx)))
            (st.p.seed idx) := by
  rw [kmerhash_iterator] at ht hfill ⊢
  rcases iterGo_true (st.dna.length - st.i) st ht with ⟨stb, heq, hp⟩
  rw [heq] at hfill ⊢
  rcases emitAll_fields stb.p stb with ⟨e1, _, _, e4, e5, _, _⟩
  have hfill2 : stb.p.size idx ≤ stb.i := by
    rw [hp]
    rw [e5] at hfill
    exact hfill
  have hmem : idx ∈ List.range stb.p.n1 := List.mem_range.mpr (by rw [hp]; exact hidx)
  have hkm : (emitAll stb.p stb).kmer idx
      = if stb.reverse1 >>> stb.p.shift1 idx < stb.forward0 &&& stb.p.mask1 idx
        then stb.reverse1 >>> stb.p.shift1 idx
        else stb.forward0 &&& stb.p.mask1 idx := by
    rw [emitAll, emit2,
      congrFun (emit2_fields stb.p (List.range stb.p.n2) (emit1 stb.p stb)).2.2.2.2.2.2.2 idx,
      emit1, foldl_emitStep1_kmer, if_pos ⟨hmem, hfill2⟩]
  have hhm : (emitAll stb.p stb).hash idx
      = stb.p.hashfunction
          (leBytes (stb.p.nbytes idx)
            (if stb.reverse1 >>> stb.p.shift1 idx < stb.forward0 &&& stb.p.mask1 idx
             then stb.reverse1 >>> stb.p.shift1 idx
             else stb.forward0 &&& stb.p.mask1 idx))
          (stb.p.seed idx) := by
    have hi1 : (emit1 stb.p stb).i = stb.i := by
      rw [emit1]; exact (emit1_fields stb.p (List.range stb.p.n1) stb).2.2.2.2.1
    rw [emitAll, emit2,
      foldl_emitStep2_hash_stable stb.p (List.range stb.p.n2) (emit1 stb.p stb) idx
        (Or.inr (by rw [hp]; exact hidx)),
      emit1, foldl_emitStep1_hash, if_pos ⟨hmem, hfill2⟩]
  rw [Prod.snd, hkm, hhm, e1, e4, hp, ite_lt_min]
  exact ⟨rfl, rfl⟩

/-- Core double-word emission fact: a true-returning call with the fill
requirement of double-word length `n1 + i2` met stores in `hash[n1 + i2]`
the seeded hash of the canonical side, chosen by the two-word comparison
(forward bytes when `forward[0] < reverse[1]`, or on that tie when the
masked `forward[1]` is below the shifted `reverse[0]`; otherwise the
reverse-pair bytes starting `shift2[i2]` bytes in). -/
theorem iter_true_emits_double (st : kmerhash) (i2 : ℕ)
    (ht : (kmerhash_iterator st).1 = true)
    (hidx : i2 < st.p.n2)
    (hfill : st.p.size (st.p.n1 + i2) ≤ (kmerhash_iterator st).2.i) :
    (kmerhash_iterator st).2.hash (st.p.n1 + i2)
      = st.p.hashfunction
          (if (kmerhash_iterator st).2.forward0 < (kmerhash_iterator st).2.reverse1 then
             (leBytes 8 (kmerhash_iterator st).2.forward0
               ++ leBytes 8 (kmerhash_iterator st).2.forward1).take (st.p.nbytes (st.p.n1 + i2))
           else if (kmerhash_iterator st).2.forward0 = (kmerhash_iterator st).2.reverse1 ∧
               ((kmerhash_iterator st).2.forward1 &&& st.p.mask2 i2)
                 < ((kmerhash_iterator st).2.reverse0 >>> st.p.shift2 i2) then
             (leBytes 8 (kmerhash_iterator st).2.forward0
               ++ leBytes 8 (kmerhash_iterator st).2.forward1).take (st.p.nbytes (st.p.n1 + i2))
           else
             ((leBytes 8 (kmerhash_iterator st).2.reverse0
               ++ leBytes 8 (kmerhash_iterator st).2.reverse1).drop (st.p.shift2 i2)).take
               (st.p.nbytes (st.p.n1 + i2)))
          (st.p.seed (st.p.n1 + i2)) := by
  rw [kmerhash_iterator] at ht hfill ⊢
  rcases iterGo_true (st.dna.length - st.i) st ht with ⟨stb, heq, hp⟩
  rw [heq] at hfill ⊢
  rcases emitAll_fields stb.p stb with ⟨e1, e2, e3, e4, e5, _, _⟩
  have hfill2 : stb.p.size (stb.p.n1 + i2) ≤ stb.i := by
    rw [hp]
    rw [e5] at hfill
    exact hfill
  have hmem : i2 ∈ List.range stb.p.n2 := List.mem_range.mpr (by rw [hp]; exact hidx)
  have hhm : (emitAll stb.p stb).hash (stb.p.n1 + i2)
      = stb.p.hashfunction
          (if stb.forward0 < stb.reverse1 then
             (leBytes 8 stb.forward0 ++ leBytes 8 stb.forward1).take
               (stb.p.nbytes (stb.p.n1 + i2))
           else if stb.forward0 = stb.reverse1 ∧
               (stb.forward1 &&& stb.p.mask2 i2) < (stb.reverse0 >>> stb.p.shift2 i2) then
             (leBytes 8 stb.forward0 ++ leBytes 8 stb.forward1).take
               (stb.p.nbytes (stb.p.n1 + i2))
           else
             ((leBytes 8 stb.reverse0 ++ leBytes 8 stb.reverse1).drop (stb.p.shift2 i2)).take
               (stb.p.nbytes (stb.p.n1 + i2)))
          (stb.p.seed (stb.p.n1 + i2)) := by
    obtain ⟨g1, g2, g3, g4, g5, _, _⟩ := emit1_fields stb.p (List.range stb.p.n1) stb
    rw [emitAll, emit2, emit1, foldl_emitStep2_hash, g1, g2, g3, g4, g5,
      if_pos ⟨hmem, hfill2⟩]
  rw [Prod.snd, ← hp, hhm, e1, e2, e3, e4]

/-! ## Claim C3: single-word canonical emission -/

/-- C3: whenever a `kmerhash_iterator` call absorbs input (returns true)
and the cursor meets the fill requirement of single-word length `idx`, the
call stores in `kmer[idx]` the numerical minimum of the masked forward
register `forward[0] & mask1[idx]` and the shifted reverse register
`reverse[1] >> shift1[idx]`, and stores in `hash[idx]` the configured hash
function applied to that canonical value (its first `nbytes[idx]`
little-endian bytes) with seed `seed[idx]`. -/
theorem C3_single_word_emission (st : kmerhash) (idx : ℕ)
    (ht : (kmerhash_iterator st).1 = true)
    (hidx : idx < st.p.n1)
    (hfill : st.p.size idx ≤ (kmerhash_iterator st).2.i) :
    (kmerhash_iterator st).2.kmer idx
        = min ((kmerhash_iterator st).2.forward0 &&& st.p.mask1 idx)
              ((kmerhash_iterator st).2.reverse1 >>> st.p.shift1 idx) ∧
    (kmerhash_iterator st).2.hash idx
        = st.p.hashfunction
            (leBytes (st.p.nbytes idx)
              (min ((kmerhash_iterator st).2.forward0 &&& st.p.mask1 idx)
                   ((kmerhash_iterator st).2.reverse1 >>> st.p.shift1 idx)))
            (st.p.seed idx) :=
  iter_true_emits_single st idx ht hidx hfill

/-- C3 witness: mode 0 over the 16-symbol input (ACGT)⁴; the first call
primes the window to `size[0] = 16` symbols and emits for length index 0. -/
theorem C3_witness :
    ((kmerhash_iterator (link_kmerhash_to_dna_sequence (new_kmerhash hSample zeroMem zeroMem 0)
      [65, 67, 71, 84, 65, 67, 71, 84, 65, 67, 71, 84, 65, 67, 71, 84])).1 = true ∧
      0 < (link_kmerhash_to_dna_sequence (new_kmerhash hSample zeroMem zeroMem 0)
      [65, 67, 71, 84, 65, 67, 71, 84, 65, 67, 71, 84, 65, 67, 71, 84]).p.n1 ∧
      (link_kmerhash_to_dna_sequence (new_kmerhash hSample zeroMem zeroMem 0)
      [65, 67, 71, 84, 65, 67, 71, 84, 65, 67, 71, 84, 65, 67, 71, 84]).p.size 0 ≤ (kmerhash_iterator (link_kmerhash_to_dna_sequence (new_kmerhash hSample zeroMem zeroMem 0)
      [65, 67, 71, 84, 65, 67, 71, 84, 65, 67, 71, 84, 65, 67, 71, 84])).2.i) ∧
    ((kmerhash_iterator (link_kmerhash_to_dna_sequence (new_kmerhash hSample zeroMem zeroMem 0)
      [65, 67, 71, 84, 65, 67, 71, 84, 65, 67, 71, 84, 65, 67, 71, 84])).2.kmer 0
        = min ((kmerhash_iterator (link_kmerhash_to_dna_sequence (new_kmerhash hSample zeroMem zeroMem 0)
      [65, 67, 71, 84, 65, 67, 71, 84, 65, 67, 71, 84, 65, 67, 71, 84])).2.forward0 &&& (link_kmerhash_to_dna_sequence (new_kmerhash hSample zeroMem zeroMem 0)
      [65, 67, 71, 84, 65, 67, 71, 84, 65, 67, 71, 84, 65, 67, 71, 84]).p.mask1 0)
              ((kmerhash_iterator (link_kmerhash_to_dna_sequence (new_kmerhash hSample zeroMem zeroMem 0)
      [65, 67, 71, 84, 65, 67, 71, 84, 65, 67, 71, 84, 65, 67, 71, 84])).2.reverse1 >>> (link_kmerhash_to_dna_sequence (new_kmerhash hSample zeroMem zeroMem 0)
      [65, 67, 71, 84, 65, 67, 71, 84, 65, 67, 71, 84, 65, 67, 71, 84]).p.shift1 0) ∧
     (kmerhash_iterator (link_kmerhash_to_dna_sequence (new_kmerhash hSample zeroMem zeroMem 0)
      [65, 67, 71, 84, 65, 67, 71, 84, 65, 67, 71, 84, 65, 67, 71, 84])).2.hash 0
        = (link_kmerhash_to_dna_sequence (new_kmerhash hSample zeroMem zeroMem 0)
      [65, 67, 71, 84, 65, 67, 71, 84, 65, 67, 71, 84, 65, 67, 71, 84]).p.hashfunction
            (leBytes ((link_kmerhash_to_dna_sequence (new_kmerhash hSample zeroMem zeroMem 0)
      [65, 67, 71, 84, 65, 67, 71, 84, 65, 67, 71, 84, 65, 67, 71, 84]).p.nbytes 0)
              (min ((kmerhash_iterator (link_kmerhash_to_dna_sequence (new_kmerhash hSample zeroMem zeroMem 0)
      [65, 67, 71, 84, 65, 67, 71, 84, 65, 67, 71, 84, 65, 67, 71, 84])).2.forward0 &&& (link_kmerhash_to_dna_sequence (new_kmerhash hSample zeroMem zeroMem 0)
      [65, 67, 71, 84, 65, 67, 71, 84, 65, 67, 71, 84, 65, 67, 71, 84]).p.mask1 0)
                   ((kmerhash_iterator (link_kmerhash_to_dna_sequence (new_kmerhash hSample zeroMem zeroMem 0)
      [65, 67, 71, 84, 65, 67, 71, 84, 65, 67, 71, 84, 65, 67, 71, 84])).2.reverse1 >>> (link_kmerhash_to_dna_sequence (new_kmerhash hSample zeroMem zeroMem 0)
      [65, 67, 71, 84, 65, 67, 71, 84, 65, 67, 71, 84, 65, 67, 71, 84]).p.shift1 0)))
            ((link_kmerhash_to_dna_sequence (new_kmerhash hSample zeroMem zeroMem 0)
      [65, 67, 71, 84, 65, 67, 71, 84, 65, 67, 71, 84, 65, 67, 71, 84]).p.seed 0)) :=
  ⟨⟨by decide, by decide, by decide⟩,
    C3_single_word_emission (link_kmerhash_to_dna_sequence (new_kmerhash hSample zeroMem zeroMem 0)
      [65, 67, 71, 84, 65, 67, 71, 84, 65, 67, 71, 84, 65, 67, 71, 84]) 0 (by decide) (by decide) (by decide)⟩

/-! ## Claim C4: fill gating -/

/-- The driver loop preserves buffer and parameters. -/
theorem runIter_dna_p : ∀ (m : ℕ) (st : kmerhash),
    (runIter m st).dna = st.dna ∧ (runIter m st).p = st.p := by
  intro m
  induction m with
  | zero => intro st; exact ⟨rfl, rfl⟩
  | succ m ih =>
    intro st
    rcases ih (kmerhash_iterator st).2 with ⟨h1, h2⟩
    rcases iterGo_dna_p (st.dna.length - st.i) st with ⟨g1, g2⟩
    exact ⟨h1.trans g1, h2.trans g2⟩

/-- The driver loop never moves the cursor backwards. -/
theorem runIter_i_mono : ∀ (m : ℕ) (st : kmerhash), st.i ≤ (runIter m st).i := by
  intro m
  induction m with
  | zero => intro st; exact le_refl _
  | succ m ih =>
    intro st
    exact le_trans (iterGo_i_mono (st.dna.length - st.i) st) (ih (kmerhash_iterator st).2)

/-- While the cursor is still short of a length's fill requirement, the
driver loop leaves that length's outputs untouched. -/
theorem runIter_no_write : ∀ (m : ℕ) (st : kmerhash) (idx : ℕ),
    (runIter m st).i < st.p.size idx →
    (runIter m st).kmer idx = st.kmer idx ∧ (runIter m st).hash idx = st.hash idx := by
  intro m
  induction m with
  | zero => intro st idx _; exact ⟨rfl, rfl⟩
  | succ m ih =>
    intro st idx hlt
    have hp2 : (kmerhash_iterator st).2.p = st.p := (iterGo_dna_p _ st).2
    have hmono : (kmerhash_iterator st).2.i ≤ (runIter m (kmerhash_iterator st).2).i :=
      runIter_i_mono m _
    have h1 : (kmerhash_iterator st).2.i < st.p.size idx := lt_of_le_of_lt hmono hlt
    rcases iterGo_no_write (st.dna.length - st.i) st idx h1 with ⟨k1, k2⟩
    rcases ih (kmerhash_iterator st).2 idx (by rw [hp2]; exact hlt) with ⟨j1, j2⟩
    exact ⟨j1.trans k1, j2.trans k2⟩

/-- After `link_kmerhash_to_dna_sequence`, every configured output is at
the zero sentinel. -/
theorem link_zero (kh : kmerhash) (dna : List ℕ) (idx : ℕ) :
    (idx < kh.p.n1 + kh.p.n2 → (link_kmerhash_to_dna_sequence kh dna).hash idx = 0) ∧
    (idx < kh.p.n1 → (link_kmerhash_to_dna_sequence kh dna).kmer idx = 0) := by
  constructor
  · intro h
    show ((List.range (kh.p.n1 + kh.p.n2)).foldl (fun f j => Function.update f j 0) kh.hash) idx = 0
    rw [foldl_update_apply (fun _ => (0 : ℕ)), if_pos (List.mem_range.mpr h)]
  · intro h
    show ((List.range kh.p.n1).foldl (fun f j => Function.update f j 0) kh.kmer) idx = 0
    rw [foldl_update_apply (fun _ => (0 : ℕ)), if_pos (List.mem_range.mpr h)]

/-- C4 counterexample: mode 0 (2-bit density, smallest window 16 symbols)
over fifteen 'N's followed by one 'C'.  The skip loop advances the cursor
past the 'N's without absorbing them, so after a single call only one
valid (non-skipped) symbol has been absorbed, yet the cursor (16) already
meets the fill requirement and `kmer[0]` is written with the nonzero
canonical value 1: the outputs do not stay at the zero sentinel until
`size[0] = 16` valid symbols have been absorbed, contrary to the claim. -/
theorem C4_counterexample :
    ((List.replicate 15 78 ++ [67]).filter (fun b => !densSkip 1 b)).length = 1 ∧
    (new_kmer_params hSample zeroMem 0).dense = 1 ∧
    (new_kmer_params hSample zeroMem 0).size 0 = 16 ∧
    (runIter 1 (link_kmerhash_to_dna_sequence (new_kmerhash hSample zeroMem zeroMem 0)
      (List.replicate 15 78 ++ [67]))).kmer 0 = 1 ∧
    ¬((runIter 1 (link_kmerhash_to_dna_sequence (new_kmerhash hSample zeroMem zeroMem 0)
      (List.replicate 15 78 ++ [67]))).kmer 0 = 0) := by
  decide

/-- C4 (amended): fill gating and first emission for every configured
length.  While the cursor (which counts skipped symbols too) is below a
length's symbol requirement `size[idx]`, that length's outputs are still at
their initial zero sentinel; and a true-returning call that lifts the
cursor from below `size[idx]` to at least `size[idx]` performs the real
emission for that length — for a single-word length the canonical raw
minimum into `kmer[idx]` and its seeded `nbytes[idx]`-byte hash into
`hash[idx]`, and for a double-word length `n1 + idx` the seeded hash of the
side chosen by the two-word comparison into `hash[n1 + idx]`. -/
theorem C4_fill_gating (xxh : List ℕ → ℕ → ℕ) (memp memh : ℕ → ℕ) (mode : ℤ)
    (dna : List ℕ) (m idx : ℕ) :
    ((runIter m (link_kmerhash_to_dna_sequence (new_kmerhash xxh memp memh mode) dna)).i < (new_kmer_params xxh memp mode).size idx →
      (idx < (new_kmer_params xxh memp mode).n1 + (new_kmer_params xxh memp mode).n2 → (runIter m (link_kmerhash_to_dna_sequence (new_kmerhash xxh memp memh mode) dna)).hash idx = 0) ∧
      (idx < (new_kmer_params xxh memp mode).n1 → (runIter m (link_kmerhash_to_dna_sequence (new_kmerhash xxh memp memh mode) dna)).kmer idx = 0)) ∧
    ((runIter m (link_kmerhash_to_dna_sequence (new_kmerhash xxh memp memh mode) dna)).i < (new_kmer_params xxh memp mode).size idx → idx < (new_kmer_params xxh memp mode).n1 →
      (kmerhash_iterator (runIter m (link_kmerhash_to_dna_sequence (new_kmerhash xxh memp memh mode) dna))).1 = true →
      (new_kmer_params xxh memp mode).size idx ≤ (kmerhash_iterator (runIter m (link_kmerhash_to_dna_sequence (new_kmerhash xxh memp memh mode) dna))).2.i →
      (kmerhash_iterator (runIter m (link_kmerhash_to_dna_sequence (new_kmerhash xxh memp memh mode) dna))).2.kmer idx
        = min ((kmerhash_iterator (runIter m (link_kmerhash_to_dna_sequence (new_kmerhash xxh memp memh mode) dna))).2.forward0 &&& (new_kmer_params xxh memp mode).mask1 idx)
              ((kmerhash_iterator (runIter m (link_kmerhash_to_dna_sequence (new_kmerhash xxh memp memh mode) dna))).2.reverse1 >>> (new_kmer_params xxh memp mode).shift1 idx) ∧
      (kmerhash_iterator (runIter m (link_kmerhash_to_dna_sequence (new_kmerhash xxh memp memh mode) dna))).2.hash idx
        = (new_kmer_params xxh memp mode).hashfunction
            (leBytes ((new_kmer_params xxh memp mode).nbytes idx)
              (min ((kmerhash_iterator (runIter m (link_kmerhash_to_dna_sequence (new_kmerhash xxh memp memh mode) dna))).2.forward0 &&& (new_kmer_params xxh memp mode).mask1 idx)
              ((kmerhash_iterator (runIter m (link_kmerhash_to_dna_sequence (new_kmerhash xxh memp memh mode) dna))).2.reverse1 >>> (new_kmer_params xxh memp mode).shift1 idx)))
            ((new_kmer_params xxh memp mode).seed idx)) ∧
    ((runIter m (link_kmerhash_to_dna_sequence (new_kmerhash xxh memp memh mode) dna)).i < (new_kmer_params xxh memp mode).size ((new_kmer_params xxh memp mode).n1 + idx) → idx < (new_kmer_params xxh memp mode).n2 →
      (kmerhash_iterator (runIter m (link_kmerhash_to_dna_sequence (new_kmerhash xxh memp memh mode) dna))).1 = true →
      (new_kmer_params xxh memp mode).size ((new_kmer_params xxh memp mode).n1 + idx) ≤ (kmerhash_iterator (runIter m (link_kmerhash_to_dna_sequence (new_kmerhash xxh memp memh mode) dna))).2.i →
      (kmerhash_iterator (runIter m (link_kmerhash_to_dna_sequence (new_kmerhash xxh memp memh mode) dna))).2.hash ((new_kmer_params xxh memp mode).n1 + idx)
        = (new_kmer_params xxh memp mode).hashfunction
            (if (kmerhash_iterator (runIter m (link_kmerhash_to_dna_sequence (new_kmerhash xxh memp memh mode) dna))).2.forward0 < (kmerhash_iterator (runIter m (link_kmerhash_to_dna_sequence (new_kmerhash xxh memp memh mode) dna))).2.reverse1 then
               (leBytes 8 (kmerhash_iterator (runIter m (link_kmerhash_to_dna_sequence (new_kmerhash xxh memp memh mode) dna))).2.forward0
                 ++ leBytes 8 (kmerhash_iterator (runIter m (link_kmerhash_to_dna_sequence (new_kmerhash xxh memp memh mode) dna))).2.forward1).take ((new_kmer_params xxh memp mode).nbytes ((new_kmer_params xxh memp mode).n1 + idx))
             else if (kmerhash_iterator (runIter m (link_kmerhash_to_dna_sequence (new_kmerhash xxh memp memh mode) dna))).2.forward0 = (kmerhash_iterator (runIter m (link_kmerhash_to_dna_sequence (new_kmerhash xxh memp memh mode) dna))).2.reverse1 ∧
                 ((kmerhash_iterator (runIter m (link_kmerhash_to_dna_sequence (new_kmerhash xxh memp memh mode) dna))).2.forward1 &&& (new_kmer_params xxh memp mode).mask2 idx)
                   < ((kmerhash_iterator (runIter m (link_kmerhash_to_dna_sequence (new_kmerhash xxh memp memh mode) dna))).2.reverse0 >>> (new_kmer_params xxh memp mode).shift2 idx) then
               (leBytes 8 (kmerhash_iterator (runIter m (link_kmerhash_to_dna_sequence (new_kmerhash xxh memp memh mode) dna))).2.forward0
                 ++ leBytes 8 (kmerhash_iterator (runIter m (link_kmerhash_to_dna_sequence (new_kmerhash xxh memp memh mode) dna))).2.forward1).take ((new_kmer_params xxh memp mode).nbytes ((new_kmer_params xxh memp mode).n1 + idx))
             else
               ((leBytes 8 (kmerhash_iterator (runIter m (link_kmerhash_to_dna_sequence (new_kmerhash xxh memp memh mode) dna))).2.reverse0
                 ++ leBytes 8 (kmerhash_iterator (runIter m (link_kmerhash_to_dna_sequence (new_kmerhash xxh memp memh mode) dna))).2.reverse1).drop ((new_kmer_params xxh memp mode).shift2 idx)).take
                 ((new_kmer_params xxh memp mode).nbytes ((new_kmer_params xxh memp mode).n1 + idx)))
            ((new_kmer_params xxh memp mode).seed ((new_kmer_params xxh memp mode).n1 + idx))) := by
  set p := new_kmer_params xxh memp mode with hpdef
  set st0 := link_kmerhash_to_dna_sequence (new_kmerhash xxh memp memh mode) dna with hst0def
  set st := runIter m st0 with hstdef
  have hd : st.p = st0.p := (runIter_dna_p m st0).2
  refine ⟨?_, ?_, ?_⟩
  · intro hlt
    rcases runIter_no_write m st0 idx hlt with ⟨k1, k2⟩
    constructor
    · intro hrange
      rw [k2]
      exact (link_zero (new_kmerhash xxh memp memh mode) dna idx).1 hrange
    · intro hrange
      rw [k1]
      exact (link_zero (new_kmerhash xxh memp memh mode) dna idx).2 hrange
  · intro _ hidx ht hfill
    have hres := iter_true_emits_single st idx ht (by rw [hd]; exact hidx)
      (by rw [hd]; exact hfill)
    rw [hd] at hres
    exact hres
  · intro _ hidx ht hfill
    have hres := iter_true_emits_double st idx ht (by rw [hd]; exact hidx)
      (by rw [hd]; exact hfill)
    rw [hd] at hres
    exact hres

/-- C4 witness, all three clauses.  Gating: mode 0 over the 4-symbol input
ACGT after one call — the cursor (4) is below `size[0] = 16`, so both
outputs of length 0 are still at the zero sentinel.  Single-word
production: mode 0 over (ACGT)⁴ — the first call lifts the cursor from 0
to `size[0] = 16` and stores both outputs of length 0.  Double-word
production: mode 4 (seven single-word and four double-word lengths) over
(ACGT)⁵ — after 16 calls the cursor is 19, below `size[7] = 20`, and the
17th call lifts it to 20 and stores `hash[7]`. -/
theorem C4_witness :
    ((runIter 1 (link_kmerhash_to_dna_sequence (new_kmerhash hSample zeroMem zeroMem 0)
        [65, 67, 71, 84])).i < (new_kmer_params hSample zeroMem 0).size 0 ∧
     (runIter 1 (link_kmerhash_to_dna_sequence (new_kmerhash hSample zeroMem zeroMem 0)
        [65, 67, 71, 84])).hash 0 = 0 ∧
     (runIter 1 (link_kmerhash_to_dna_sequence (new_kmerhash hSample zeroMem zeroMem 0)
        [65, 67, 71, 84])).kmer 0 = 0) ∧
    (((runIter 0 (link_kmerhash_to_dna_sequence (new_kmerhash hSample zeroMem zeroMem 0) [65, 67, 71, 84, 65, 67, 71, 84, 65, 67, 71, 84, 65, 67, 71, 84])).i < (new_kmer_params hSample zeroMem 0).size 0 ∧ 0 < (new_kmer_params hSample zeroMem 0).n1 ∧
      (kmerhash_iterator (runIter 0 (link_kmerhash_to_dna_sequence (new_kmerhash hSample zeroMem zeroMem 0) [65, 67, 71, 84, 65, 67, 71, 84, 65, 67, 71, 84, 65, 67, 71, 84]))).1 = true ∧ (new_kmer_params hSample zeroMem 0).size 0 ≤ (kmerhash_iterator (runIter 0 (link_kmerhash_to_dna_sequence (new_kmerhash hSample zeroMem zeroMem 0) [65, 67, 71, 84, 65, 67, 71, 84, 65, 67, 71, 84, 65, 67, 71, 84]))).2.i) ∧
     (kmerhash_iterator (runIter 0 (link_kmerhash_to_dna_sequence (new_kmerhash hSample zeroMem zeroMem 0) [65, 67, 71, 84, 65, 67, 71, 84, 65, 67, 71, 84, 65, 67, 71, 84]))).2.kmer 0
        = min ((kmerhash_iterator (runIter 0 (link_kmerhash_to_dna_sequence (new_kmerhash hSample zeroMem zeroMem 0) [65, 67, 71, 84, 65, 67, 71, 84, 65, 67, 71, 84, 65, 67, 71, 84]))).2.forward0 &&& (new_kmer_params hSample zeroMem 0).mask1 0)
            ((kmerhash_iterator (runIter 0 (link_kmerhash_to_dna_sequence (new_kmerhash hSample zeroMem zeroMem 0) [65, 67, 71, 84, 65, 67, 71, 84, 65, 67, 71, 84, 65, 67, 71, 84]))).2.reverse1 >>> (new_kmer_params hSample zeroMem 0).shift1 0) ∧
     (kmerhash_iterator (runIter 0 (link_kmerhash_to_dna_sequence (new_kmerhash hSample zeroMem zeroMem 0) [65, 67, 71, 84, 65, 67, 71, 84, 65, 67, 71, 84, 65, 67, 71, 84]))).2.hash 0
        = (new_kmer_params hSample zeroMem 0).hashfunction
            (leBytes ((new_kmer_params hSample zeroMem 0).nbytes 0)
              (min ((kmerhash_iterator (runIter 0 (link_kmerhash_to_dna_sequence (new_kmerhash hSample zeroMem zeroMem 0) [65, 67, 71, 84, 65, 67, 71, 84, 65, 67, 71, 84, 65, 67, 71, 84]))).2.forward0 &&& (new_kmer_params hSample zeroMem 0).mask1 0)
            ((kmerhash_iterator (runIter 0 (link_kmerhash_to_dna_sequence (new_kmerhash hSample zeroMem zeroMem 0) [65, 67, 71, 84, 65, 67, 71, 84, 65, 67, 71, 84, 65, 67, 71, 84]))).2.reverse1 >>> (new_kmer_params hSample zeroMem 0).shift1 0)))
            ((new_kmer_params hSample zeroMem 0).seed 0)) ∧
    (((runIter 16 (link_kmerhash_to_dna_sequence (new_kmerhash hSample zeroMem zeroMem 4) [65, 67, 71, 84, 65, 67, 71, 84, 65, 67, 71, 84, 65, 67, 71, 84, 65, 67, 71, 84])).i < (new_kmer_params hSample zeroMem 4).size ((new_kmer_params hSample zeroMem 4).n1 + 0) ∧ 0 < (new_kmer_params hSample zeroMem 4).n2 ∧
      (kmerhash_iterator (runIter 16 (link_kmerhash_to_dna_sequence (new_kmerhash hSample zeroMem zeroMem 4) [65, 67, 71, 84, 65, 67, 71, 84, 65, 67, 71, 84, 65, 67, 71, 84, 65, 67, 71, 84]))).1 = true ∧ (new_kmer_params hSample zeroMem 4).size ((new_kmer_params hSample zeroMem 4).n1 + 0) ≤ (kmerhash_iterator (runIter 16 (link_kmerhash_to_dna_sequence (new_kmerhash hSample zeroMem zeroMem 4) [65, 67, 71, 84, 65, 67, 71, 84, 65, 67, 71, 84, 65, 67, 71, 84, 65, 67, 71, 84]))).2.i) ∧
     (kmerhash_iterator (runIter 16 (link_kmerhash_to_dna_sequence (new_kmerhash hSample zeroMem zeroMem 4) [65, 67, 71, 84, 65, 67, 71, 84, 65, 67, 71, 84, 65, 67, 71, 84, 65, 67, 71, 84]))).2.hash ((new_kmer_params hSample zeroMem 4).n1 + 0)
        = (new_kmer_params hSample zeroMem 4).hashfunction
            (if (kmerhash_iterator (runIter 16 (link_kmerhash_to_dna_sequence (new_kmerhash hSample zeroMem zeroMem 4) [65, 67, 71, 84, 65, 67, 71, 84, 65, 67, 71, 84, 65, 67, 71, 84, 65, 67, 71, 84]))).2.forward0 < (kmerhash_iterator (runIter 16 (link_kmerhash_to_dna_sequence (new_kmerhash hSample zeroMem zeroMem 4) [65, 67, 71, 84, 65, 67, 71, 84, 65, 67, 71, 84, 65, 67, 71, 84, 65, 67, 71, 84]))).2.reverse1 then
               (leBytes 8 (kmerhash_iterator (runIter 16 (link_kmerhash_to_dna_sequence (new_kmerhash hSample zeroMem zeroMem 4) [65, 67, 71, 84, 65, 67, 71, 84, 65, 67, 71, 84, 65, 67, 71, 84, 65, 67, 71, 84]))).2.forward0
                 ++ leBytes 8 (kmerhash_iterator (runIter 16 (link_kmerhash_to_dna_sequence (new_kmerhash hSample zeroMem zeroMem 4) [65, 67, 71, 84, 65, 67, 71, 84, 65, 67, 71, 84, 65, 67, 71, 84, 65, 67, 71, 84]))).2.forward1).take ((new_kmer_params hSample zeroMem 4).nbytes ((new_kmer_params hSample zeroMem 4).n1 + 0))
             else if (kmerhash_iterator (runIter 16 (link_kmerhash_to_dna_sequence (new_kmerhash hSample zeroMem zeroMem 4) [65, 67, 71, 84, 65, 67, 71, 84, 65, 67, 71, 84, 65, 67, 71, 84, 65, 67, 71, 84]))).2.forward0 = (kmerhash_iterator (runIter 16 (link_kmerhash_to_dna_sequence (new_kmerhash hSample zeroMem zeroMem 4) [65, 67, 71, 84, 65, 67, 71, 84, 65, 67, 71, 84, 65, 67, 71, 84, 65, 67, 71, 84]))).2.reverse1 ∧
                 ((kmerhash_iterator (runIter 16 (link_kmerhash_to_dna_sequence (new_kmerhash hSample zeroMem zeroMem 4) [65, 67, 71, 84, 65, 67, 71, 84, 65, 67, 71, 84, 65, 67, 71, 84, 65, 67, 71, 84]))).2.forward1 &&& (new_kmer_params hSample zeroMem 4).mask2 0)
                   < ((kmerhash_iterator (runIter 16 (link_kmerhash_to_dna_sequence (new_kmerhash hSample zeroMem zeroMem 4) [65, 67, 71, 84, 65, 67, 71, 84, 65, 67, 71, 84, 65, 67, 71, 84, 65, 67, 71, 84]))).2.reverse0 >>> (new_kmer_params hSample zeroMem 4).shift2 0) then
               (leBytes 8 (kmerhash_iterator (runIter 16 (link_kmerhash_to_dna_sequence (new_kmerhash hSample zeroMem zeroMem 4) [65, 67, 71, 84, 65, 67, 71, 84, 65, 67, 71, 84, 65, 67, 71, 84, 65, 67, 71, 84]))).2.forward0
                 ++ leBytes 8 (kmerhash_iterator (runIter 16 (link_kmerhash_to_dna_sequence (new_kmerhash hSample zeroMem zeroMem 4) [65, 67, 71, 84, 65, 67, 71, 84, 65, 67, 71, 84, 65, 67, 71, 84, 65, 67, 71, 84]))).2.forward1).take ((new_kmer_params hSample zeroMem 4).nbytes ((new_kmer_params hSample zeroMem 4).n1 + 0))
             else
               ((leBytes 8 (kmerhash_iterator (runIter 16 (link_kmerhash_to_dna_sequence (new_kmerhash hSample zeroMem zeroMem 4) [65, 67, 71, 84, 65, 67, 71, 84, 65, 67, 71, 84, 65, 67, 71, 84, 65, 67, 71, 84]))).2.reverse0
                 ++ leBytes 8 (kmerhash_iterator (runIter 16 (link_kmerhash_to_dna_sequence (new_kmerhash hSample zeroMem zeroMem 4) [65, 67, 71, 84, 65, 67, 71, 84, 65, 67, 71, 84, 65, 67, 71, 84, 65, 67, 71, 84]))).2.reverse1).drop ((new_kmer_params hSample zeroMem 4).shift2 0)).take
                 ((new_kmer_params hSample zeroMem 4).nbytes ((new_kmer_params hSample zeroMem 4).n1 + 0)))
            ((new_kmer_params hSample zeroMem 4).seed ((new_kmer_params hSample zeroMem 4).n1 + 0))) :=
  ⟨⟨by decide,
    ((C4_fill_gating hSample zeroMem zeroMem 0 [65, 67, 71, 84] 1 0).1 (by decide)).1 (by decide),
    ((C4_fill_gating hSample zeroMem zeroMem 0 [65, 67, 71, 84] 1 0).1 (by decide)).2 (by decide)⟩,
   ⟨⟨by decide, by decide, by decide, by decide⟩,
    (C4_fill_gating hSample zeroMem zeroMem 0
      [65, 67, 71, 84, 65, 67, 71, 84, 65, 67, 71, 84, 65, 67, 71, 84] 0 0).2.1
      (by decide) (by decide) (by decide) (by decide)⟩,
   ⟨⟨by decide, by decide, by decide, by decide⟩,
    (C4_fill_gating hSample zeroMem zeroMem 4
      [65, 67, 71, 84, 65, 67, 71, 84, 65, 67, 71, 84, 65, 67, 71, 84, 65, 67, 71, 84] 16 0).2.2
      (by decide) (by decide) (by decide) (by decide)⟩⟩

/-! ## Abstract register arithmetic for the window invariant (C2) -/

/-- The reverse window value stays below its register width. -/
theorem packS_lt (W w : ℕ) (hwW : w ≤ W) :
    ∀ (ps : List (ℕ × ℕ)) (FS : ℕ × ℕ), FS.2 < 2 ^ W → (∀ pr ∈ ps, pr.2 < 2 ^ w) →
    (ps.foldl (packStep W w) FS).2 < 2 ^ W := by
  intro ps
  induction ps with
  | nil => intro FS h _; exact h
  | cons a t ih =>
    intro FS h hall
    rw [List.foldl_cons]
    apply ih
    · show FS.2 / 2 ^ w + a.2 * 2 ^ (W - w) < 2 ^ W
      have hpow : (2 : ℕ) ^ w * 2 ^ (W - w) = 2 ^ W := by
        rw [← pow_add]; congr 1; omega
      have h1 : FS.2 / 2 ^ w < 2 ^ (W - w) := by
        apply Nat.div_lt_of_lt_mul
        rw [hpow]; exact h
      have h2 : a.2 < 2 ^ w := hall a (List.mem_cons_self a t)
      have h3 : (a.2 + 1) * 2 ^ (W - w) ≤ 2 ^ w * 2 ^ (W - w) :=
        Nat.mul_le_mul_right _ (by omega)
      have h4 : (a.2 + 1) * 2 ^ (W - w) = a.2 * 2 ^ (W - w) + 2 ^ (W - w) := by ring
      omega
    · intro pr hpr; exact hall pr (List.mem_cons_of_mem a hpr)

/-- Extracting `w` bits at offset `a` is unaffected by truncation at a
width `W` that covers the extracted field. -/
theorem mod_pow_div_mod (x W a w : ℕ) (h : a + w ≤ W) :
    x % 2 ^ W / 2 ^ a % 2 ^ w = x / 2 ^ a % 2 ^ w := by
  have hx : x = 2 ^ a * (2 ^ (W - a) * (x / 2 ^ W)) + x % 2 ^ W := by
    rw [← mul_assoc, ← pow_add]
    have he : a + (W - a) = W := by omega
    rw [he, Nat.div_add_mod]
  conv_rhs => rw [hx]
  rw [Nat.mul_add_div (Nat.two_pow_pos a)]
  have hsplit : (2 : ℕ) ^ (W - a) * (x / 2 ^ W) = 2 ^ w * (2 ^ (W - a - w) * (x / 2 ^ W)) := by
    rw [← mul_assoc, ← pow_add]
    congr 2
    omega
  rw [hsplit, Nat.mul_add_mod]

/-- The heart of the reverse-window invariant: after absorbing the code
pairs `ps` (each code below `2^w`) into a `W`-bit register pair via
`packStep`, the `j`-th symbol from the bottom of the forward value is the
forward code of the `j`-th most recent pair, and the `j`-th symbol from the
top of the reverse value is that same pair's reverse code. -/
theorem pack_extract (W w : ℕ) (hw : 0 < w) :
    ∀ (ps : List (ℕ × ℕ)), (∀ pr ∈ ps, pr.1 < 2 ^ w ∧ pr.2 < 2 ^ w) →
    ∀ j : ℕ, j < ps.length → w * (j + 1) ≤ W →
    (ps.foldl (packStep W w) (0, 0)).1 / 2 ^ (w * j) % 2 ^ w = (ps.reverse.getD j (0, 0)).1 ∧
    (ps.foldl (packStep W w) (0, 0)).2 / 2 ^ (W - w * (j + 1)) % 2 ^ w
      = (ps.reverse.getD j (0, 0)).2 := by
  intro ps
  induction ps using List.reverseRecOn with
  | nil => intro _ j hj _; simp at hj
  | append_singleton l a ih =>
    intro hall j hj hW
    have halll : ∀ pr ∈ l, pr.1 < 2 ^ w ∧ pr.2 < 2 ^ w := by
      intro pr hpr; exact hall pr (List.mem_append_left _ hpr)
    have ha : a.1 < 2 ^ w ∧ a.2 < 2 ^ w :=
      hall a (List.mem_append_right _ (List.mem_singleton.mpr rfl))
    rw [List.foldl_append, List.foldl_cons, List.foldl_nil]
    have hrev : (l ++ [a]).reverse = a :: l.reverse := by simp
    rw [hrev]
    set F := (l.foldl (packStep W w) (0, 0)).1 with hF
    set S := (l.foldl (packStep W w) (0, 0)).2 with hS
    have hSlt : S < 2 ^ W := by
      apply packS_lt W w (by
        have h1 : w * (j + 1) = w * j + w := by ring
        omega) l (0, 0) (Nat.two_pow_pos W)
      intro pr hpr
      exact (halll pr hpr).2
    cases j with
    | zero =>
      constructor
      · show (F * 2 ^ w + a.1) % 2 ^ W / 2 ^ (w * 0) % 2 ^ w = a.1
        rw [mul_zero, pow_zero, Nat.div_one,
          Nat.mod_mod_of_dvd _ (pow_dvd_pow 2 (by
            have h1 : w * (0 + 1) = w := by ring
            omega)),
          mul_comm F (2 ^ w), Nat.mul_add_mod, Nat.mod_eq_of_lt ha.1]
      · show (S / 2 ^ w + a.2 * 2 ^ (W - w)) / 2 ^ (W - w * (0 + 1)) % 2 ^ w = a.2
        rw [show W - w * (0 + 1) = W - w from by
          have h1 : w * (0 + 1) = w := by ring
          omega]
        rw [Nat.add_mul_div_right _ _ (Nat.two_pow_pos (W - w)),
          Nat.div_div_eq_div_mul, ← pow_add]
        have he : w + (W - w) = W := by
          have h1 : w * (0 + 1) = w := by ring
          omega
        rw [he, Nat.div_eq_of_lt hSlt, zero_add, Nat.mod_eq_of_lt ha.2]
    | succ j =>
      have hjl : j < l.length := by
        rw [List.length_append, List.length_singleton] at hj
        omega
      have hWj : w * (j + 1) ≤ W := by
        have h1 : w * (j + 1 + 1) = w * (j + 1) + w := by ring
        omega
      rcases ih halll j hjl hWj with ⟨ihF, ihS⟩
      constructor
      · show (F * 2 ^ w + a.1) % 2 ^ W / 2 ^ (w * (j + 1)) % 2 ^ w
            = ((a :: l.reverse).getD (j + 1) (0, 0)).1
        rw [mod_pow_div_mod _ W _ w (by
          have h1 : w * (j + 1 + 1) = w * (j + 1) + w := by ring
          omega)]
        have hsplit : (2 : ℕ) ^ (w * (j + 1)) = 2 ^ w * 2 ^ (w * j) := by
          rw [← pow_add]; congr 1; ring
        rw [hsplit, ← Nat.div_div_eq_div_mul]
        have hdiv : (F * 2 ^ w + a.1) / 2 ^ w = F := by
          rw [mul_comm F (2 ^ w), Nat.mul_add_div (Nat.two_pow_pos w),
            Nat.div_eq_of_lt ha.1, add_zero]
        rw [hdiv, ihF]
        simp
      · show (S / 2 ^ w + a.2 * 2 ^ (W - w)) / 2 ^ (W - w * (j + 1 + 1)) % 2 ^ w
            = ((a :: l.reverse).getD (j + 1) (0, 0)).2
        have hWk : w * (j + 2) ≤ W := by
          have h1 : w * (j + 1 + 1) = w * (j + 2) := by ring
          omega
        have hsplit : a.2 * 2 ^ (W - w)
            = a.2 * 2 ^ (w * (j + 1)) * 2 ^ (W - w * (j + 1 + 1)) := by
          rw [mul_assoc, ← pow_add]
          congr 2
          have h1 : w * (j + 1 + 1) = w * (j + 1) + w := by ring
          omega
        rw [hsplit, Nat.add_mul_div_right _ _ (Nat.two_pow_pos (W - w * (j + 1 + 1))),
          Nat.div_div_eq_div_mul, ← pow_add]
        have he : w + (W - w * (j + 1 + 1)) = W - w * (j + 1) := by
          have h1 : w * (j + 1 + 1) = w * (j + 1) + w := by ring
          omega
        rw [he]
        have hmul : a.2 * 2 ^ (w * (j + 1)) = 2 ^ w * (a.2 * 2 ^ (w * j)) := by
          rw [show w * (j + 1) = w * j + w from by ring, pow_add]
          ring
        rw [hmul, Nat.add_mul_mod_self_left, ihS]
        simp

/-- A left-shifted word has its low `w` bits clear, so or-ing in a `w`-bit
code is an addition, and the result still fits in the word. -/
theorem lor_shift_left (x c w : ℕ) (hc : c < 2 ^ w) (hw : w ≤ 64) :
    (x * 2 ^ w % 2 ^ 64 ||| c) = x * 2 ^ w % 2 ^ 64 + c ∧
    x * 2 ^ w % 2 ^ 64 + c < 2 ^ 64 := by
  have hdvd : (2 : ℕ) ^ w ∣ x * 2 ^ w % 2 ^ 64 :=
    (Nat.dvd_mod_iff (pow_dvd_pow 2 hw)).mpr (dvd_mul_left _ _)
  have hlt : x * 2 ^ w % 2 ^ 64 < 2 ^ 64 := Nat.mod_lt _ (Nat.two_pow_pos 64)
  have hbound : x * 2 ^ w % 2 ^ 64 + c < 2 ^ 64 := by
    have hd2 : (2 : ℕ) ^ w ∣ 2 ^ 64 - x * 2 ^ w % 2 ^ 64 :=
      Nat.dvd_sub' (pow_dvd_pow 2 hw) hdvd
    have h2 : (2 : ℕ) ^ w ≤ 2 ^ 64 - x * 2 ^ w % 2 ^ 64 :=
      Nat.le_of_dvd (by omega) hd2
    omega
  exact ⟨lor_eq_add_of_dvd w _ c hdvd hc, hbound⟩

/-- A right-shifted word has its high bits clear, so or-ing a `w`-bit code
into the top is an addition, and the result still fits in the word. -/
theorem lor_shift_right_top (r rc w : ℕ) (hr : r < 2 ^ 64) (hrc : rc < 2 ^ w)
    (hw0 : 0 < w) (hw : w ≤ 64) :
    (r / 2 ^ w ||| rc * 2 ^ (64 - w) % 2 ^ 64) = r / 2 ^ w + rc * 2 ^ (64 - w) ∧
    r / 2 ^ w + rc * 2 ^ (64 - w) < 2 ^ 64 := by
  have hpow : (2 : ℕ) ^ w * 2 ^ (64 - w) = 2 ^ 64 := by
    rw [← pow_add]; congr 1; omega
  have hm : rc * 2 ^ (64 - w) < 2 ^ 64 := by
    calc rc * 2 ^ (64 - w) < 2 ^ w * 2 ^ (64 - w) :=
          Nat.mul_lt_mul_of_pos_right hrc (Nat.two_pow_pos _)
    _ = 2 ^ 64 := hpow
  have hd : r / 2 ^ w < 2 ^ (64 - w) := by
    apply Nat.div_lt_of_lt_mul
    rw [hpow]
    exact hr
  have hbound : r / 2 ^ w + rc * 2 ^ (64 - w) < 2 ^ 64 := by
    have h3 : (rc + 1) * 2 ^ (64 - w) ≤ 2 ^ w * 2 ^ (64 - w) :=
      Nat.mul_le_mul_right _ (by omega)
    have h4 : (rc + 1) * 2 ^ (64 - w) = rc * 2 ^ (64 - w) + 2 ^ (64 - w) := by ring
    omega
  constructor
  · rw [Nat.mod_eq_of_lt hm, Nat.lor_comm,
      lor_eq_add_of_dvd (64 - w) _ _ (dvd_mul_left _ _) hd, Nat.add_comm]
  · exact hbound

/-- Left-shifting a word keeps only its low bits, scaled. -/
theorem mul_shift_mod (x w : ℕ) (hw : w ≤ 64) :
    x * 2 ^ (64 - w) % 2 ^ 64 = x % 2 ^ w * 2 ^ (64 - w) := by
  have h : (2 : ℕ) ^ 64 = 2 ^ w * 2 ^ (64 - w) := by rw [← pow_add]; congr 1; omega
  rw [h, Nat.mul_mod_mul_right]

/-- The scaled low bits of a left shift. -/
theorem mul_shift_mod_left (x w : ℕ) (hw : w ≤ 64) :
    x * 2 ^ w % 2 ^ 64 = x % 2 ^ (64 - w) * 2 ^ w := by
  have h : (2 : ℕ) ^ 64 = 2 ^ (64 - w) * 2 ^ w := by rw [← pow_add]; congr 1; omega
  rw [h, Nat.mul_mod_mul_right]

/-- The two-register absorption implements one `packStep` on the 128-bit
views (forward pair as `forward1·2^64 + forward0`, reverse pair as
`reverse1·2^64 + reverse0`), and keeps every word below `2^64`. -/
theorem absorbW_view_two (w : ℕ) (cr : ℕ × ℕ) (st : kmerhash)
    (hw0 : 0 < w) (hw : w ≤ 8)
    (hf0 : st.forward0 < 2 ^ 64) (hf1 : st.forward1 < 2 ^ 64)
    (hr0 : st.reverse0 < 2 ^ 64) (hr1 : st.reverse1 < 2 ^ 64)
    (hc1 : cr.1 < 2 ^ w) (hc2 : cr.2 < 2 ^ w) :
    (absorbW true w cr st).forward1 * 2 ^ 64 + (absorbW true w cr st).forward0
      = ((st.forward1 * 2 ^ 64 + st.forward0) * 2 ^ w + cr.1) % 2 ^ 128 ∧
    (absorbW true w cr st).reverse1 * 2 ^ 64 + (absorbW true w cr st).reverse0
      = (st.reverse1 * 2 ^ 64 + st.reverse0) / 2 ^ w + cr.2 * 2 ^ (128 - w) ∧
    (absorbW true w cr st).forward0 < 2 ^ 64 ∧ (absorbW true w cr st).forward1 < 2 ^ 64 ∧
    (absorbW true w cr st).reverse0 < 2 ^ 64 ∧ (absorbW true w cr st).reverse1 < 2 ^ 64 := by
  have hw64 : w ≤ 64 := by omega
  have hpow : (2 : ℕ) ^ (64 - w) * 2 ^ w = 2 ^ 64 := by rw [← pow_add]; congr 1; omega
  have ef0 : (absorbW true w cr st).forward0 = st.forward0 * 2 ^ w % 2 ^ 64 ||| cr.1 := rfl
  have ef1 : (absorbW true w cr st).forward1
      = st.forward1 * 2 ^ w % 2 ^ 64 ||| st.forward0 / 2 ^ (64 - w) := rfl
  have er0 : (absorbW true w cr st).reverse0
      = st.reverse0 / 2 ^ w ||| st.reverse1 * 2 ^ (64 - w) % 2 ^ 64 := rfl
  have er1 : (absorbW true w cr st).reverse1
      = st.reverse1 / 2 ^ w ||| cr.2 * 2 ^ (64 - w) % 2 ^ 64 := rfl
  have hc1' : st.forward0 / 2 ^ (64 - w) < 2 ^ w := by
    apply Nat.div_lt_of_lt_mul
    rw [hpow]
    exact hf0
  obtain ⟨af0, bf0⟩ := lor_shift_left st.forward0 cr.1 w hc1 hw64
  obtain ⟨af1, bf1⟩ := lor_shift_left st.forward1 (st.forward0 / 2 ^ (64 - w)) w hc1' hw64
  obtain ⟨ar1, br1⟩ := lor_shift_right_top st.reverse1 cr.2 w hr1 hc2 hw0 hw64
  have hd0 : st.reverse0 / 2 ^ w < 2 ^ (64 - w) := by
    apply Nat.div_lt_of_lt_mul
    rw [mul_comm, hpow]
    exact hr0
  have hrc' : st.reverse1 % 2 ^ w < 2 ^ w := Nat.mod_lt _ (Nat.two_pow_pos w)
  have er0' : (absorbW true w cr st).reverse0
      = st.reverse0 / 2 ^ w + st.reverse1 % 2 ^ w * 2 ^ (64 - w) := by
    rw [er0, mul_shift_mod st.reverse1 w hw64, Nat.lor_comm,
      lor_eq_add_of_dvd (64 - w) _ _ (dvd_mul_left _ _) hd0, Nat.add_comm]
  have br0 : st.reverse0 / 2 ^ w + st.reverse1 % 2 ^ w * 2 ^ (64 - w) < 2 ^ 64 := by
    have h3 : (st.reverse1 % 2 ^ w + 1) * 2 ^ (64 - w) ≤ 2 ^ w * 2 ^ (64 - w) :=
      Nat.mul_le_mul_right _ (by omega)
    have h4 : (st.reverse1 % 2 ^ w + 1) * 2 ^ (64 - w)
        = st.reverse1 % 2 ^ w * 2 ^ (64 - w) + 2 ^ (64 - w) := by ring
    have h5 : (2 : ℕ) ^ w * 2 ^ (64 - w) = 2 ^ 64 := by rw [← pow_add]; congr 1; omega
    omega
  have hf0split : st.forward0 * 2 ^ w
      = st.forward0 / 2 ^ (64 - w) * 2 ^ 64 + st.forward0 % 2 ^ (64 - w) * 2 ^ w := by
    conv_lhs => rw [← Nat.div_add_mod st.forward0 (2 ^ (64 - w))]
    rw [← hpow]
    ring
  have hL : (absorbW true w cr st).forward1 * 2 ^ 64 + (absorbW true w cr st).forward0
      = st.forward1 * 2 ^ w % 2 ^ 64 * 2 ^ 64 + (st.forward0 * 2 ^ w + cr.1) := by
    rw [ef1, af1, ef0, af0, mul_shift_mod_left st.forward0 w hw64, hf0split]
    ring
  have hXlt : st.forward1 * 2 ^ w % 2 ^ 64 * 2 ^ 64 + (st.forward0 * 2 ^ w + cr.1)
      < 2 ^ 128 := by
    rw [← hL, ef1, af1, ef0, af0]
    have h1 : st.forward1 * 2 ^ w % 2 ^ 64 + st.forward0 / 2 ^ (64 - w) ≤ 2 ^ 64 - 1 := by
      omega
    have h2 : (st.forward1 * 2 ^ w % 2 ^ 64 + st.forward0 / 2 ^ (64 - w)) * 2 ^ 64
        ≤ (2 ^ 64 - 1) * 2 ^ 64 := Nat.mul_le_mul_right _ h1
    have h3 : ((2 : ℕ) ^ 64 - 1) * 2 ^ 64 = 2 ^ 128 - 2 ^ 64 := by norm_num
    omega
  have hR : ((st.forward1 * 2 ^ 64 + st.forward0) * 2 ^ w + cr.1) % 2 ^ 128
      = st.forward1 * 2 ^ w % 2 ^ 64 * 2 ^ 64 + (st.forward0 * 2 ^ w + cr.1) := by
    have hnum : (st.forward1 * 2 ^ 64 + st.forward0) * 2 ^ w + cr.1
        = st.forward1 * 2 ^ w % 2 ^ 64 * 2 ^ 64 + (st.forward0 * 2 ^ w + cr.1)
          + st.forward1 * 2 ^ w / 2 ^ 64 * 2 ^ 128 := by
      have hsplitf1 : st.forward1 * 2 ^ w
          = st.forward1 * 2 ^ w / 2 ^ 64 * 2 ^ 64 + st.forward1 * 2 ^ w % 2 ^ 64 := by
        have hdm := Nat.div_add_mod (st.forward1 * 2 ^ w) (2 ^ 64)
        omega
      have h128 : (2 : ℕ) ^ 128 = 2 ^ 64 * 2 ^ 64 := by norm_num
      calc (st.forward1 * 2 ^ 64 + st.forward0) * 2 ^ w + cr.1
          = st.forward1 * 2 ^ w * 2 ^ 64 + (st.forward0 * 2 ^ w + cr.1) := by ring
        _ = (st.forward1 * 2 ^ w / 2 ^ 64 * 2 ^ 64 + st.forward1 * 2 ^ w % 2 ^ 64) * 2 ^ 64
              + (st.forward0 * 2 ^ w + cr.1) := by rw [← hsplitf1]
        _ = st.forward1 * 2 ^ w % 2 ^ 64 * 2 ^ 64 + (st.forward0 * 2 ^ w + cr.1)
              + st.forward1 * 2 ^ w / 2 ^ 64 * (2 ^ 64 * 2 ^ 64) := by ring
        _ = _ := by rw [← h128]
    rw [hnum, Nat.add_mul_mod_self_right, Nat.mod_eq_of_lt hXlt]
  have hSdiv : (st.reverse1 * 2 ^ 64 + st.reverse0) / 2 ^ w
      = st.reverse1 / 2 ^ w * 2 ^ 64 + st.reverse1 % 2 ^ w * 2 ^ (64 - w)
        + st.reverse0 / 2 ^ w := by
    have h1 : st.reverse1 * 2 ^ 64 + st.reverse0
        = 2 ^ w * (st.reverse1 * 2 ^ (64 - w)) + st.reverse0 := by
      rw [← mul_assoc, mul_comm (2 ^ w) st.reverse1, mul_assoc, ← pow_add]
      congr 3
      omega
    rw [h1, Nat.mul_add_div (Nat.two_pow_pos w)]
    have h2 : st.reverse1 * 2 ^ (64 - w)
        = st.reverse1 / 2 ^ w * 2 ^ 64 + st.reverse1 % 2 ^ w * 2 ^ (64 - w) := by
      conv_lhs => rw [← Nat.div_add_mod st.reverse1 (2 ^ w)]
      rw [show (2 : ℕ) ^ 64 = 2 ^ w * 2 ^ (64 - w) from by rw [← pow_add]; congr 1; omega]
      ring
    omega
  have hc2' : cr.2 * 2 ^ (128 - w) = cr.2 * 2 ^ (64 - w) * 2 ^ 64 := by
    rw [mul_assoc, ← pow_add]
    congr 2
    omega
  refine ⟨?_, ?_, ?_, ?_, ?_, ?_⟩
  · rw [hL, hR]
  · rw [er1, ar1, er0', hSdiv, hc2']
    ring
  · rw [ef0, af0]; exact bf0
  · rw [ef1, af1]; exact bf1
  · rw [er0']; exact br0
  · rw [er1, ar1]; exact br1

/-- The single-register absorption implements one `packStep` on the 64-bit
views (`forward0`, `reverse1`), leaving the other pair untouched. -/
theorem absorbW_view_one (w : ℕ) (cr : ℕ × ℕ) (st : kmerhash)
    (hw0 : 0 < w) (hw : w ≤ 8)
    (hf0 : st.forward0 < 2 ^ 64) (hr1 : st.reverse1 < 2 ^ 64)
    (hc1 : cr.1 < 2 ^ w) (hc2 : cr.2 < 2 ^ w) :
    (absorbW false w cr st).forward0 = (st.forward0 * 2 ^ w + cr.1) % 2 ^ 64 ∧
    (absorbW false w cr st).reverse1 = st.reverse1 / 2 ^ w + cr.2 * 2 ^ (64 - w) ∧
    (absorbW false w cr st).forward1 = st.forward1 ∧
    (absorbW false w cr st).reverse0 = st.reverse0 ∧
    (absorbW false w cr st).forward0 < 2 ^ 64 ∧
    (absorbW false w cr st).reverse1 < 2 ^ 64 := by
  have hw64 : w ≤ 64 := by omega
  have ef0 : (absorbW false w cr st).forward0 = st.forward0 * 2 ^ w % 2 ^ 64 ||| cr.1 := rfl
  have er1 : (absorbW false w cr st).reverse1
      = st.reverse1 / 2 ^ w ||| cr.2 * 2 ^ (64 - w) % 2 ^ 64 := rfl
  obtain ⟨af0, bf0⟩ := lor_shift_left st.forward0 cr.1 w hc1 hw64
  obtain ⟨ar1, br1⟩ := lor_shift_right_top st.reverse1 cr.2 w hr1 hc2 hw0 hw64
  have hmod : (st.forward0 * 2 ^ w + cr.1) % 2 ^ 64
      = st.forward0 * 2 ^ w % 2 ^ 64 + cr.1 := by
    have h1 : st.forward0 * 2 ^ w + cr.1
        = 2 ^ 64 * (st.forward0 * 2 ^ w / 2 ^ 64)
          + (st.forward0 * 2 ^ w % 2 ^ 64 + cr.1) := by
      have hdm := Nat.div_add_mod (st.forward0 * 2 ^ w) (2 ^ 64)
      omega
    rw [h1, Nat.mul_add_mod, Nat.mod_eq_of_lt bf0]
  refine ⟨?_, ?_, rfl, rfl, ?_, ?_⟩
  · rw [ef0, af0, hmod]
  · rw [er1, ar1]
  · rw [ef0, af0]; exact bf0
  · rw [er1, ar1]; exact br1

/-- A fold of absorptions advances the cursor by the number of bytes and
touches neither buffer, parameters nor outputs. -/
theorem foldl_absorbStep_fields (p : kmer_params) : ∀ (bs : List ℕ) (st : kmerhash),
    (bs.foldl (absorbStep p) st).i = st.i + bs.length ∧
    (bs.foldl (absorbStep p) st).dna = st.dna ∧
    (bs.foldl (absorbStep p) st).p = st.p ∧
    (bs.foldl (absorbStep p) st).kmer = st.kmer ∧
    (bs.foldl (absorbStep p) st).hash = st.hash := by
  intro bs
  induction bs with
  | nil => intro st; exact ⟨by rw [List.foldl_nil, List.length_nil, Nat.add_zero], rfl, rfl, rfl, rfl⟩
  | cons b t ih =>
    intro st
    rw [List.foldl_cons]
    rcases ih (absorbStep p st b) with ⟨h1, h2, h3, h4, h5⟩
    rcases absorbStep_fields p st b with ⟨g1, g2, g3, g4, g5⟩
    refine ⟨?_, h2.trans g2, h3.trans g3, h4.trans g4, h5.trans g5⟩
    rw [h1, g1, List.length_cons]
    omega

/-- One absorption step as a `packStep` on the window views, with word
bounds carried along. -/
theorem absorbStep_view (p : kmer_params) (w : ℕ) (b : ℕ) (st : kmerhash)
    (hw : densBits p.dense = w) (hw0 : 0 < w) (hw8 : w ≤ 8)
    (hcb : (densCode p.dense b).1 < 2 ^ w ∧ (densCode p.dense b).2 < 2 ^ w)
    (b0 : st.forward0 < 2 ^ 64) (b1 : st.forward1 < 2 ^ 64)
    (b2 : st.reverse0 < 2 ^ 64) (b3 : st.reverse1 < 2 ^ 64) :
    (forwardView p (absorbStep p st b), reverseView p (absorbStep p st b))
        = packStep (if p.n2 ≠ 0 then 128 else 64) w
            (forwardView p st, reverseView p st) (densCode p.dense b) ∧
    (absorbStep p st b).forward0 < 2 ^ 64 ∧
    (absorbStep p st b).forward1 < 2 ^ 64 ∧
    (absorbStep p st b).reverse0 < 2 ^ 64 ∧
    (absorbStep p st b).reverse1 < 2 ^ 64 := by
  by_cases hn : p.n2 = 0
  · have hu : (p.n2 != 0) = false := by simp [hn]
    have estep : absorbStep p st b
        = { absorbW false w (densCode p.dense b) st with i := st.i + 1 } := by
      rw [absorbStep, hu, hw]
    obtain ⟨v1, v2, v3, v4, v5, v6⟩ :=
      absorbW_view_one w (densCode p.dense b) st hw0 hw8 b0 b3 hcb.1 hcb.2
    have hif : (if p.n2 ≠ 0 then 128 else 64) = 64 := by simp [hn]
    have g0 : (absorbStep p st b).forward0 = (absorbW false w (densCode p.dense b) st).forward0 := by
      rw [estep]
    have g1 : (absorbStep p st b).forward1 = (absorbW false w (densCode p.dense b) st).forward1 := by
      rw [estep]
    have g2 : (absorbStep p st b).reverse0 = (absorbW false w (densCode p.dense b) st).reverse0 := by
      rw [estep]
    have g3 : (absorbStep p st b).reverse1 = (absorbW false w (densCode p.dense b) st).reverse1 := by
      rw [estep]
    refine ⟨?_, ?_, ?_, ?_, ?_⟩
    · rw [hif, forwardView, forwardView, reverseView, reverseView,
        if_neg (fun hc => hc hn), if_neg (fun hc => hc hn),
        if_neg (fun hc => hc hn), if_neg (fun hc => hc hn)]
      rw [packStep, g0, g3, v1, v2]
    · rw [g0, v1]
      exact Nat.mod_lt _ (Nat.two_pow_pos 64)
    · rw [g1, v3]; exact b1
    · rw [g2, v4]; exact b2
    · rw [g3]; exact v6
  · have hu : (p.n2 != 0) = true := by simp [hn]
    have estep : absorbStep p st b
        = { absorbW true w (densCode p.dense b) st with i := st.i + 1 } := by
      rw [absorbStep, hu, hw]
    obtain ⟨v1, v2, v3, v4, v5, v6⟩ :=
      absorbW_view_two w (densCode p.dense b) st hw0 hw8 b0 b1 b2 b3 hcb.1 hcb.2
    have hif : (if p.n2 ≠ 0 then 128 else 64) = 128 := by simp [hn]
    have g0 : (absorbStep p st b).forward0 = (absorbW true w (densCode p.dense b) st).forward0 := by
      rw [estep]
    have g1 : (absorbStep p st b).forward1 = (absorbW true w (densCode p.dense b) st).forward1 := by
      rw [estep]
    have g2 : (absorbStep p st b).reverse0 = (absorbW true w (densCode p.dense b) st).reverse0 := by
      rw [estep]
    have g3 : (absorbStep p st b).reverse1 = (absorbW true w (densCode p.dense b) st).reverse1 := by
      rw [estep]
    refine ⟨?_, ?_, ?_, ?_, ?_⟩
    · rw [hif, forwardView, forwardView, reverseView, reverseView,
        if_pos hn, if_pos hn, if_pos hn, if_pos hn]
      rw [packStep, g0, g1, g2, g3, v1, v2]
    · rw [g0]; exact v3
    · rw [g1]; exact v4
    · rw [g2]; exact v5
    · rw [g3]; exact v6

/-- Folding absorptions over a byte list implements the `packStep` fold of
the code pairs on the window views. -/
theorem fold_absorbStep_view (p : kmer_params) (w : ℕ)
    (hw : densBits p.dense = w) (hw0 : 0 < w) (hw8 : w ≤ 8) :
    ∀ (bs : List ℕ) (st : kmerhash),
    (∀ b ∈ bs, (densCode p.dense b).1 < 2 ^ w ∧ (densCode p.dense b).2 < 2 ^ w) →
    st.forward0 < 2 ^ 64 → st.forward1 < 2 ^ 64 → st.reverse0 < 2 ^ 64 →
    st.reverse1 < 2 ^ 64 →
    (forwardView p (bs.foldl (absorbStep p) st),
     reverseView p (bs.foldl (absorbStep p) st))
        = (bs.map (densCode p.dense)).foldl
            (packStep (if p.n2 ≠ 0 then 128 else 64) w)
            (forwardView p st, reverseView p st) ∧
    (bs.foldl (absorbStep p) st).forward0 < 2 ^ 64 ∧
    (bs.foldl (absorbStep p) st).forward1 < 2 ^ 64 ∧
    (bs.foldl (absorbStep p) st).reverse0 < 2 ^ 64 ∧
    (bs.foldl (absorbStep p) st).reverse1 < 2 ^ 64 := by
  intro bs
  induction bs with
  | nil => intro st _ b0 b1 b2 b3; exact ⟨rfl, b0, b1, b2, b3⟩
  | cons b t ih =>
    intro st hall b0 b1 b2 b3
    rw [List.foldl_cons, List.map_cons, List.foldl_cons]
    obtain ⟨s1, s2, s3, s4, s5⟩ :=
      absorbStep_view p w b st hw hw0 hw8 (hall b (List.mem_cons_self b t)) b0 b1 b2 b3
    obtain ⟨i1, i2, i3, i4, i5⟩ := ih (absorbStep p st b)
      (fun x hx => hall x (List.mem_cons_of_mem b hx)) s2 s3 s4 s5
    refine ⟨?_, i2, i3, i4, i5⟩
    rw [i1, ← s1]

/-- At the end of the input the iterator returns false, state unchanged. -/
theorem iterGo_at_end (f : ℕ) (st : kmerhash) (h : st.i = st.dna.length) :
    kmerhash_iterator_go f st = (false, st) := by
  cases f with
  | zero => rfl
  | succ f => rw [iterGo_succ, if_pos h]

/-- One call over skip-free input: returns true, advances the cursor to
`min n (max (i+1) size[0])` (one symbol, or several up to the priming
target `size[0]`), and the final registers are the fold of absorptions over
exactly the consumed bytes. -/
theorem iterGo_valid_run : ∀ (f : ℕ) (st : kmerhash),
    (∀ b ∈ st.dna, densSkip st.p.dense b = false) →
    st.i < st.dna.length → st.dna.length - st.i ≤ f →
    (kmerhash_iterator_go f st).1 = true ∧
    (kmerhash_iterator_go f st).2.i
      = min st.dna.length (max (st.i + 1) (st.p.size 0)) ∧
    ((kmerhash_iterator_go f st).2.forward0, (kmerhash_iterator_go f st).2.forward1,
     (kmerhash_iterator_go f st).2.reverse0, (kmerhash_iterator_go f st).2.reverse1)
      = ((((st.dna.drop st.i).take
            (min st.dna.length (max (st.i + 1) (st.p.size 0)) - st.i)).foldl
              (absorbStep st.p) st).forward0, (((st.dna.drop st.i).take
            (min st.dna.length (max (st.i + 1) (st.p.size 0)) - st.i)).foldl
              (absorbStep st.p) st).forward1,
         (((st.dna.drop st.i).take
            (min st.dna.length (max (st.i + 1) (st.p.size 0)) - st.i)).foldl
              (absorbStep st.p) st).reverse0, (((st.dna.drop st.i).take
            (min st.dna.length (max (st.i + 1) (st.p.size 0)) - st.i)).foldl
              (absorbStep st.p) st).reverse1) := by
  intro f
  induction f with
  | zero => intro st _ hi hf; omega
  | succ f ih =>
    intro st hv hi hf
    have h1 : ¬(st.i = st.dna.length) := by omega
    have hskip : iterSkip st = st := skipGo_valid _ _ _ hv
    have habs : iterAbsorb st = absorbStep st.p st (st.dna.getD st.i 0) := rfl
    rcases iterAbsorb_fields st with ⟨ai, adna, ap, _, _⟩
    rw [iterGo_succ, if_neg h1, hskip, if_neg h1]
    by_cases h3 : (iterAbsorb st).i < (iterAbsorb st).p.size 0
    · rw [if_pos h3]
      rw [ai, ap] at h3
      by_cases hend : (iterAbsorb st).i = st.dna.length
      · rw [iterGo_at_end f _ (by rw [adna]; exact hend)]
        rw [ai] at hend
        have hq : min st.dna.length (max (st.i + 1) (st.p.size 0)) = st.i + 1 := by
          have hm : max (st.i + 1) (st.p.size 0) = st.p.size 0 := Nat.max_eq_right (by omega)
          rw [hm]
          exact le_antisymm (le_trans (Nat.min_le_left _ _) (le_of_eq hend.symm))
            (Nat.le_min.mpr ⟨by omega, by omega⟩)
        rw [hq]
        have hslice : (st.dna.drop st.i).take (st.i + 1 - st.i) = [st.dna.getD st.i 0] := by
          rw [show st.i + 1 - st.i = 1 from by omega, List.drop_eq_getElem_cons hi,
            ← List.getD_eq_getElem st.dna 0 hi]
          rfl
        rw [hslice]
        rcases emitAll_fields (iterAbsorb st).p (iterAbsorb st) with ⟨e1, e2, e3, e4, e5, _, _⟩
        refine ⟨rfl, ?_, ?_⟩
        · show (emitAll (iterAbsorb st).p (iterAbsorb st)).i = st.i + 1
          rw [e5, ai]
        · rw [List.foldl_cons, List.foldl_nil, ← habs]
          show (Prod.mk (emitAll (iterAbsorb st).p (iterAbsorb st)).forward0 _ = _)
          rw [e1, e2, e3, e4]
      · rw [ai] at hend
        have hi2 : (iterAbsorb st).i < (iterAbsorb st).dna.length := by
          rw [ai, adna]; omega
        obtain ⟨ih1, ih2, ih3⟩ := ih (iterAbsorb st)
          (by rw [adna, ap]; exact hv) hi2 (by rw [adna, ai]; omega)
        rw [adna, ai, ap] at ih2
        rw [adna, ai, ap] at ih3
        have hq : min st.dna.length (max (st.i + 1 + 1) (st.p.size 0))
            = min st.dna.length (max (st.i + 1) (st.p.size 0)) := by
          rw [Nat.max_eq_right (by omega : st.i + 1 + 1 ≤ st.p.size 0),
            Nat.max_eq_right (by omega : st.i + 1 ≤ st.p.size 0)]
        rw [hq] at ih2 ih3
        have hqge : st.i + 1 ≤ min st.dna.length (max (st.i + 1) (st.p.size 0)) :=
          Nat.le_min.mpr ⟨by omega, le_trans (by omega) (Nat.le_max_left _ _)⟩
        have hsliceq : (st.dna.drop st.i).take
              (min st.dna.length (max (st.i + 1) (st.p.size 0)) - st.i)
            = st.dna.getD st.i 0 :: ((st.dna.drop (st.i + 1)).take
              (min st.dna.length (max (st.i + 1) (st.p.size 0)) - (st.i + 1))) := by
          rw [List.drop_eq_getElem_cons hi, ← List.getD_eq_getElem st.dna 0 hi,
            show min st.dna.length (max (st.i + 1) (st.p.size 0)) - st.i
              = (min st.dna.length (max (st.i + 1) (st.p.size 0)) - (st.i + 1)) + 1
              from by omega]
          rfl
        rw [hsliceq, List.foldl_cons, ← habs]
        rcases emitAll_fields (kmerhash_iterator_go f (iterAbsorb st)).2.p
            (kmerhash_iterator_go f (iterAbsorb st)).2 with ⟨e1, e2, e3, e4, e5, _, _⟩
        refine ⟨rfl, ?_, ?_⟩
        · show (emitAll _ _).i = _
          rw [e5, ih2]
        · show (Prod.mk (emitAll _ _).forward0 _ = _)
          rw [e1, e2, e3, e4]
          exact ih3
    · rw [if_neg h3]
      rw [ai, ap] at h3
      have hq : min st.dna.length (max (st.i + 1) (st.p.size 0)) = st.i + 1 := by
        have hm : max (st.i + 1) (st.p.size 0) = st.i + 1 := Nat.max_eq_left (by omega)
        rw [hm]
        exact Nat.min_eq_right (by omega)
      rw [hq]
      have hslice : (st.dna.drop st.i).take (st.i + 1 - st.i) = [st.dna.getD st.i 0] := by
        rw [show st.i + 1 - st.i = 1 from by omega, List.drop_eq_getElem_cons hi,
          ← List.getD_eq_getElem st.dna 0 hi]
        rfl
      rw [hslice]
      rcases emitAll_fields (iterAbsorb st).p (iterAbsorb st) with ⟨e1, e2, e3, e4, e5, _, _⟩
      refine ⟨rfl, ?_, ?_⟩
      · show (emitAll (iterAbsorb st).p (iterAbsorb st)).i = st.i + 1
        rw [e5, ai]
      · rw [List.foldl_cons, List.foldl_nil, ← habs]
        show (Prod.mk (emitAll (iterAbsorb st).p (iterAbsorb st)).forward0 _ = _)
        rw [e1, e2, e3, e4]

/-- The driver loop unrolled at the far end: `m+1` calls are `m` calls
followed by one. -/
theorem runIter_succ_last : ∀ (m : ℕ) (st : kmerhash),
    runIter (m + 1) st = (kmerhash_iterator (runIter m st)).2 := by
  intro m
  induction m with
  | zero => intro st; rfl
  | succ m ih =>
    intro st
    have e1 : runIter (m + 1 + 1) st = runIter (m + 1) (kmerhash_iterator st).2 := rfl
    have e2 : runIter (m + 1) st = runIter m (kmerhash_iterator st).2 := rfl
    rw [e1, ih, e2]

/-- The register transition of an absorption depends only on the registers
of the input state. -/
theorem absorbStep_regs_congr (p : kmer_params) (b : ℕ) (s1 s2 : kmerhash)
    (h0 : s1.forward0 = s2.forward0) (h1 : s1.forward1 = s2.forward1)
    (h2 : s1.reverse0 = s2.reverse0) (h3 : s1.reverse1 = s2.reverse1) :
    (absorbStep p s1 b).forward0 = (absorbStep p s2 b).forward0 ∧
    (absorbStep p s1 b).forward1 = (absorbStep p s2 b).forward1 ∧
    (absorbStep p s1 b).reverse0 = (absorbStep p s2 b).reverse0 ∧
    (absorbStep p s1 b).reverse1 = (absorbStep p s2 b).reverse1 := by
  cases hu : (p.n2 != 0) <;> simp [absorbStep, absorbW, hu, h0, h1, h2, h3]

/-- Register-only congruence for a whole fold of absorptions. -/
theorem foldl_absorbStep_regs_congr (p : kmer_params) : ∀ (bs : List ℕ) (s1 s2 : kmerhash),
    s1.forward0 = s2.forward0 → s1.forward1 = s2.forward1 →
    s1.reverse0 = s2.reverse0 → s1.reverse1 = s2.reverse1 →
    (bs.foldl (absorbStep p) s1).forward0 = (bs.foldl (absorbStep p) s2).forward0 ∧
    (bs.foldl (absorbStep p) s1).forward1 = (bs.foldl (absorbStep p) s2).forward1 ∧
    (bs.foldl (absorbStep p) s1).reverse0 = (bs.foldl (absorbStep p) s2).reverse0 ∧
    (bs.foldl (absorbStep p) s1).reverse1 = (bs.foldl (absorbStep p) s2).reverse1 := by
  intro bs
  induction bs with
  | nil => intro s1 s2 h0 h1 h2 h3; exact ⟨h0, h1, h2, h3⟩
  | cons b t ih =>
    intro s1 s2 h0 h1 h2 h3
    rw [List.foldl_cons, List.foldl_cons]
    obtain ⟨g0, g1, g2, g3⟩ := absorbStep_regs_congr p b s1 s2 h0 h1 h2 h3
    exact ih _ _ g0 g1 g2 g3

/-- Every mode's first configured length covers at least one symbol. -/
theorem size0_pos (xxh : List ℕ → ℕ → ℕ) (mem : ℕ → ℕ) (mode : ℤ) :
    1 ≤ (new_kmer_params xxh mem mode).size 0 := by
  unfold new_kmer_params
  split_ifs
  · rw [show (new_kmer_params_build xxh mem mode 0 1).size 0 = 16 from rfl]; omega
  · rw [show (new_kmer_params_build xxh mem mode 2 1).size 0 = 8 from rfl]; omega
  · rw [show (new_kmer_params_build xxh mem mode 3 0).size 0 = 4 from rfl]; omega
  · rw [show (new_kmer_params_build xxh mem mode 5 0).size 0 = 4 from rfl]; omega
  · rw [show (new_kmer_params_build xxh mem mode 1 2).size 0 = 32 from rfl]; omega
  · rw [show (new_kmer_params_build xxh mem mode 4 1).size 0 = 8 from rfl]; omega

/-- Each density uses 1, 2 or 4 bits per symbol. -/
theorem densBits_facts (d : ℕ) : 0 < densBits d ∧ densBits d ≤ 8 := by
  unfold densBits
  split_ifs <;> decide

/-- A byte the 1-bit skip test lets through carries equal forward and
reverse columns, both below 2. -/
theorem dna_in_1_bits_valid (b : ℕ) (h : ¬ 1 < (dna_in_1_bits b).1) :
    (dna_in_1_bits b).1 < 2 ∧ (dna_in_1_bits b).2 < 2 ∧
    (dna_in_1_bits b).2 = (dna_in_1_bits b).1 := by
  unfold dna_in_1_bits at h ⊢
  split_ifs at h ⊢ <;> first
  | exact ⟨by decide, by decide, by decide⟩
  | exact absurd (by decide) h

/-- A byte the 2-bit skip test lets through carries complementary columns
`(c, 3 - c)`, both below 4. -/
theorem dna_in_2_bits_valid (b : ℕ) (h : ¬ 3 < (dna_in_2_bits b).1) :
    (dna_in_2_bits b).1 < 4 ∧ (dna_in_2_bits b).2 < 4 ∧
    (dna_in_2_bits b).2 = 3 - (dna_in_2_bits b).1 := by
  unfold dna_in_2_bits at h ⊢
  split_ifs at h ⊢ <;> first
  | exact ⟨by decide, by decide, by decide⟩
  | exact absurd (by decide) h

/-- Every 4-bit table entry's reverse column is the bit-reversal of its
forward column, both below 16. -/
theorem dna_in_4_bits_comp (b : ℕ) :
    (dna_in_4_bits b).1 < 16 ∧ (dna_in_4_bits b).2 < 16 ∧
    (dna_in_4_bits b).2 = bitrev4 (dna_in_4_bits b).1 := by
  unfold dna_in_4_bits
  by_cases h65 : b = 65
  · rw [if_pos h65]
    exact ⟨by decide, by decide, by decide⟩
  · rw [if_neg h65]
    by_cases h66 : b = 66
    · rw [if_pos h66]
      exact ⟨by decide, by decide, by decide⟩
    · rw [if_neg h66]
      by_cases h67 : b = 67
      · rw [if_pos h67]
        exact ⟨by decide, by decide, by decide⟩
      · rw [if_neg h67]
        by_cases h68 : b = 68
        · rw [if_pos h68]
          exact ⟨by decide, by decide, by decide⟩
        · rw [if_neg h68]
          by_cases h71 : b = 71
          · rw [if_pos h71]
            exact ⟨by decide, by decide, by decide⟩
          · rw [if_neg h71]
            by_cases h72 : b = 72
            · rw [if_pos h72]
              exact ⟨by decide, by decide, by decide⟩
            · rw [if_neg h72]
              by_cases h75 : b = 75
              · rw [if_pos h75]
                exact ⟨by decide, by decide, by decide⟩
              · rw [if_neg h75]
                by_cases h77 : b = 77
                · rw [if_pos h77]
                  exact ⟨by decide, by decide, by decide⟩
                · rw [if_neg h77]
                  by_cases h78 : b = 78
                  · rw [if_pos h78]
                    exact ⟨by decide, by decide, by decide⟩
                  · rw [if_neg h78]
                    by_cases h79 : b = 79
                    · rw [if_pos h79]
                      exact ⟨by decide, by decide, by decide⟩
                    · rw [if_neg h79]
                      by_cases h82 : b = 82
                      · rw [if_pos h82]
                        exact ⟨by decide, by decide, by decide⟩
                      · rw [if_neg h82]
                        by_cases h83 : b = 83
                        · rw [if_pos h83]
                          exact ⟨by decide, by decide, by decide⟩
                        · rw [if_neg h83]
                          by_cases h84 : b = 84
                          · rw [if_pos h84]
                            exact ⟨by decide, by decide, by decide⟩
                          · rw [if_neg h84]
                            by_cases h85 : b = 85
                            · rw [if_pos h85]
                              exact ⟨by decide, by decide, by decide⟩
                            · rw [if_neg h85]
                              by_cases h86 : b = 86
                              · rw [if_pos h86]
                                exact ⟨by decide, by decide, by decide⟩
                              · rw [if_neg h86]
                                by_cases h87 : b = 87
                                · rw [if_pos h87]
                                  exact ⟨by decide, by decide, by decide⟩
                                · rw [if_neg h87]
                                  by_cases h88 : b = 88
                                  · rw [if_pos h88]
                                    exact ⟨by decide, by decide, by decide⟩
                                  · rw [if_neg h88]
                                    by_cases h89 : b = 89
                                    · rw [if_pos h89]
                                      exact ⟨by decide, by decide, by decide⟩
                                    · rw [if_neg h89]
                                      by_cases h63 : b = 63
                                      · rw [if_pos h63]
                                        exact ⟨by decide, by decide, by decide⟩
                                      · rw [if_neg h63]
                                        by_cases h45 : b = 45
                                        · rw [if_pos h45]
                                          exact ⟨by decide, by decide, by decide⟩
                                        · rw [if_neg h45]
                                          exact ⟨by decide, by decide, by decide⟩

/-- A non-skipped byte's code pair at any density: both codes fit the
symbol width and the reverse code is the density's complement of the
forward code. -/
theorem densCode_valid (d b : ℕ) (hs : densSkip d b = false) :
    (densCode d b).1 < 2 ^ densBits d ∧ (densCode d b).2 < 2 ^ densBits d ∧
    (densCode d b).2 = densComp d (densCode d b).1 := by
  by_cases h2 : d = 2
  · subst h2
    unfold densSkip at hs
    rw [if_pos rfl] at hs
    have h := of_decide_eq_false hs
    obtain ⟨a1, a2, a3⟩ := dna_in_1_bits_valid b h
    unfold densCode densComp densBits
    rw [if_pos rfl, if_pos rfl, if_pos rfl, pow_one]
    exact ⟨a1, a2, a3⟩
  · by_cases h1 : d = 1
    · subst h1
      unfold densSkip at hs
      rw [if_neg (by decide), if_pos rfl] at hs
      have h := of_decide_eq_false hs
      obtain ⟨a1, a2, a3⟩ := dna_in_2_bits_valid b h
      unfold densCode densComp densBits
      rw [if_neg (by decide), if_pos rfl, if_neg (by decide), if_pos rfl,
        if_neg (by decide), if_pos rfl, show (2:ℕ) ^ 2 = 4 from rfl]
      exact ⟨a1, a2, a3⟩
    · obtain ⟨a1, a2, a3⟩ := dna_in_4_bits_comp b
      unfold densCode densComp densBits
      rw [if_neg h2, if_neg h1, if_neg h2, if_neg h1, if_neg h2, if_neg h1,
        show (2:ℕ) ^ 4 = 16 from rfl]
      exact ⟨a1, a2, a3⟩

/-- `m+1` driver calls on a freshly linked state over skip-free input: the
cursor lands at `min n (size[0] + m)` and the registers are the fold of
absorptions over exactly that prefix of the input. -/
theorem runIter_valid_run (st0 : kmerhash)
    (hv : ∀ b ∈ st0.dna, densSkip st0.p.dense b = false)
    (hi0 : st0.i = 0) (hs1 : 1 ≤ st0.p.size 0) (hd : 1 ≤ st0.dna.length) :
    ∀ m : ℕ,
    (runIter (m + 1) st0).i = min st0.dna.length (st0.p.size 0 + m) ∧
    ((runIter (m + 1) st0).forward0, (runIter (m + 1) st0).forward1,
     (runIter (m + 1) st0).reverse0, (runIter (m + 1) st0).reverse1)
      = (((st0.dna.take (min st0.dna.length (st0.p.size 0 + m))).foldl (absorbStep st0.p) st0).forward0, ((st0.dna.take (min st0.dna.length (st0.p.size 0 + m))).foldl (absorbStep st0.p) st0).forward1,
         ((st0.dna.take (min st0.dna.length (st0.p.size 0 + m))).foldl (absorbStep st0.p) st0).reverse0, ((st0.dna.take (min st0.dna.length (st0.p.size 0 + m))).foldl (absorbStep st0.p) st0).reverse1) := by
  intro m
  induction m with
  | zero =>
    have hk : runIter (0 + 1) st0
        = (kmerhash_iterator_go (st0.dna.length - st0.i) st0).2 := rfl
    obtain ⟨g1, g2, g3⟩ := iterGo_valid_run (st0.dna.length - st0.i) st0 hv (by omega) (le_refl _)
    have hmm : min st0.dna.length (max (st0.i + 1) (st0.p.size 0))
        = min st0.dna.length (st0.p.size 0 + 0) := by
      rw [hi0, Nat.zero_add, Nat.max_eq_right hs1, Nat.add_zero]
    have hsl : (st0.dna.drop st0.i).take
          (min st0.dna.length (max (st0.i + 1) (st0.p.size 0)) - st0.i)
        = st0.dna.take (min st0.dna.length (st0.p.size 0 + 0)) := by
      rw [hmm, hi0, List.drop_zero, Nat.sub_zero]
    constructor
    · rw [hk, g2, hmm]
    · rw [hk]
      rw [hsl] at g3
      exact g3
  | succ m ih =>
    obtain ⟨ih1, ih2⟩ := ih
    obtain ⟨hdna, hp⟩ := runIter_dna_p (m + 1) st0
    rw [runIter_succ_last]
    by_cases hend : (runIter (m + 1) st0).i = st0.dna.length
    · have h0 : kmerhash_iterator (runIter (m + 1) st0) = (false, runIter (m + 1) st0) :=
        iterGo_at_end _ _ (by rw [hdna]; exact hend)
      rw [h0]
      have hle : st0.dna.length ≤ st0.p.size 0 + m := by
        rcases Nat.lt_or_ge (st0.p.size 0 + m) st0.dna.length with h | h
        · rw [Nat.min_eq_right (le_of_lt h)] at ih1
          rw [ih1] at hend
          omega
        · exact h
      have hteq : min st0.dna.length (st0.p.size 0 + (m + 1))
          = min st0.dna.length (st0.p.size 0 + m) := by
        rw [Nat.min_eq_left (by omega), Nat.min_eq_left hle]
      rw [hteq]
      exact ⟨ih1, ih2⟩
    · have hxle : (runIter (m + 1) st0).i ≤ st0.dna.length := by
        rw [ih1]
        exact Nat.min_le_left _ _
      have hlt : (runIter (m + 1) st0).i < st0.dna.length := by omega
      have hlt2 : st0.p.size 0 + m < st0.dna.length := by
        rcases Nat.lt_or_ge (st0.p.size 0 + m) st0.dna.length with h | h
        · exact h
        · rw [Nat.min_eq_left h] at ih1
          exact absurd ih1 hend
      have hieq : (runIter (m + 1) st0).i = st0.p.size 0 + m := by
        rw [ih1]
        exact Nat.min_eq_right (le_of_lt hlt2)
      obtain ⟨g1, g2, g3⟩ := iterGo_valid_run
        (st0.dna.length - (st0.p.size 0 + m)) (runIter (m + 1) st0)
        (by rw [hdna, hp]; exact hv) (by rw [hdna]; exact hlt)
        (le_of_eq (by rw [hdna, hieq]))
      have hfuel : (runIter (m + 1) st0).dna.length - (runIter (m + 1) st0).i
          = st0.dna.length - (st0.p.size 0 + m) := by
        rw [hdna, hieq]
      have hk : (kmerhash_iterator (runIter (m + 1) st0)).2
          = (kmerhash_iterator_go (st0.dna.length - (st0.p.size 0 + m))
              (runIter (m + 1) st0)).2 := by
        show (kmerhash_iterator_go
            ((runIter (m + 1) st0).dna.length - (runIter (m + 1) st0).i)
            (runIter (m + 1) st0)).2 = _
        rw [hfuel]
      have hmax : max (st0.p.size 0 + m + 1) (st0.p.size 0) = st0.p.size 0 + m + 1 :=
        Nat.max_eq_left (by omega)
      rw [hdna, hp, hieq, hmax] at g2 g3
      constructor
      · rw [hk, g2]
        rfl
      · rw [hk]
        have hmin2 : min st0.dna.length (st0.p.size 0 + m) = st0.p.size 0 + m :=
          Nat.min_eq_right (le_of_lt hlt2)
        rw [hmin2] at ih2
        simp only [Prod.mk.injEq] at ih2 g3 ⊢
        obtain ⟨e0, e1, e2, e3⟩ := ih2
        obtain ⟨g3a, g3b, g3c, g3d⟩ := g3
        have hsplit2 : st0.dna.take (min st0.dna.length (st0.p.size 0 + (m + 1)))
            = st0.dna.take (st0.p.size 0 + m)
              ++ ((st0.dna.drop (st0.p.size 0 + m)).take
                  (min st0.dna.length (st0.p.size 0 + m + 1) - (st0.p.size 0 + m))) := by
          rw [← List.take_add]
          have e : st0.p.size 0 + (m + 1) = st0.p.size 0 + m + 1 := rfl
          rw [e]
          have h1 : st0.p.size 0 + m ≤ min st0.dna.length (st0.p.size 0 + m + 1) :=
            Nat.le_min.mpr ⟨by omega, by omega⟩
          have h2 : (st0.p.size 0 + m) + (min st0.dna.length (st0.p.size 0 + m + 1)
              - (st0.p.size 0 + m)) = min st0.dna.length (st0.p.size 0 + m + 1) := by
            omega
          rw [h2]
        obtain ⟨c0, c1, c2, c3⟩ := foldl_absorbStep_regs_congr st0.p
          ((st0.dna.drop (st0.p.size 0 + m)).take
            (min st0.dna.length (st0.p.size 0 + m + 1) - (st0.p.size 0 + m)))
          (runIter (m + 1) st0)
          ((st0.dna.take (st0.p.size 0 + m)).foldl (absorbStep st0.p) st0)
          e0 e1 e2 e3
        rw [hsplit2, List.foldl_append]
        exact ⟨g3a.trans c0, g3b.trans c1, g3c.trans c2, g3d.trans c3⟩

/-- `getD` of the reversed mapped prefix: the `j`-th most recent element of
the first `t` entries. -/
theorem take_map_rev_getD (dc : ℕ → ℕ × ℕ) (l : List ℕ) (t j : ℕ)
    (ht : t ≤ l.length) (hj : j < t) :
    ((l.take t).map dc).reverse.getD j (0, 0) = dc (l.getD (t - 1 - j) 0) := by
  have hlm : ((l.take t).map dc).length = t := by
    rw [List.length_map, List.length_take]
    exact Nat.min_eq_left ht
  have hjr : j < ((l.take t).map dc).reverse.length := by
    rw [List.length_reverse, hlm]
    exact hj
  rw [List.getD_eq_getElem _ _ hjr, List.getElem_reverse, List.getElem_map,
    List.getElem_take, List.getD_eq_getElem l 0 (by omega)]
  simp only [hlm]

/-- C2: after every driver call on skip-free input (each call absorbs at
least one symbol), the reverse register pair holds exactly the reverse
complement, at the configured density, of the symbol span held in the
forward register pair, with the most recent symbol at opposite ends: the
`j`-th symbol from the bottom of the forward window is the code of the
`j`-th most recently absorbed byte, and the `j`-th symbol from the top of
the reverse window is that code's density complement. -/
theorem C2_reverse_window_invariant
    (xxh : List ℕ → ℕ → ℕ) (memp memh : ℕ → ℕ) (mode : ℤ) (dna : List ℕ) (m j : ℕ)
    (hv : ∀ b ∈ dna, densSkip (new_kmer_params xxh memp mode).dense b = false)
    (hd : 1 ≤ dna.length)
    (hj : j < min dna.length ((new_kmer_params xxh memp mode).size 0 + m))
    (hjW : densBits (new_kmer_params xxh memp mode).dense * (j + 1) ≤ (if (new_kmer_params xxh memp mode).n2 ≠ 0 then 128 else 64)) :
    forwardView (new_kmer_params xxh memp mode) (runIter (m + 1) (link_kmerhash_to_dna_sequence (new_kmerhash xxh memp memh mode) dna)) / 2 ^ ((densBits (new_kmer_params xxh memp mode).dense) * j) % 2 ^ (densBits (new_kmer_params xxh memp mode).dense)
        = (densCode (new_kmer_params xxh memp mode).dense (dna.getD ((min dna.length ((new_kmer_params xxh memp mode).size 0 + m)) - 1 - j) 0)).1 ∧
    reverseView (new_kmer_params xxh memp mode) (runIter (m + 1) (link_kmerhash_to_dna_sequence (new_kmerhash xxh memp memh mode) dna)) / 2 ^ ((if (new_kmer_params xxh memp mode).n2 ≠ 0 then 128 else 64) - (densBits (new_kmer_params xxh memp mode).dense) * (j + 1)) % 2 ^ (densBits (new_kmer_params xxh memp mode).dense)
        = densComp (new_kmer_params xxh memp mode).dense
            (forwardView (new_kmer_params xxh memp mode) (runIter (m + 1) (link_kmerhash_to_dna_sequence (new_kmerhash xxh memp memh mode) dna)) / 2 ^ ((densBits (new_kmer_params xxh memp mode).dense) * j) % 2 ^ (densBits (new_kmer_params xxh memp mode).dense)) := by
  have hp0 : (link_kmerhash_to_dna_sequence (new_kmerhash xxh memp memh mode) dna).p = (new_kmer_params xxh memp mode) := rfl
  have hdna0 : (link_kmerhash_to_dna_sequence (new_kmerhash xxh memp memh mode) dna).dna = dna := rfl
  rw [← hp0] at hv hj hjW ⊢
  obtain ⟨h_i, h_regs⟩ := runIter_valid_run (link_kmerhash_to_dna_sequence (new_kmerhash xxh memp memh mode) dna) hv rfl (size0_pos xxh memp mode) hd m
  rw [hdna0] at h_i h_regs
  obtain ⟨hw0, hw8⟩ := densBits_facts (link_kmerhash_to_dna_sequence (new_kmerhash xxh memp memh mode) dna).p.dense
  have hcodes : ∀ b ∈ dna.take (min dna.length ((link_kmerhash_to_dna_sequence (new_kmerhash xxh memp memh mode) dna).p.size 0 + m)),
      (densCode (link_kmerhash_to_dna_sequence (new_kmerhash xxh memp memh mode) dna).p.dense b).1 < 2 ^ (densBits (link_kmerhash_to_dna_sequence (new_kmerhash xxh memp memh mode) dna).p.dense) ∧
      (densCode (link_kmerhash_to_dna_sequence (new_kmerhash xxh memp memh mode) dna).p.dense b).2 < 2 ^ (densBits (link_kmerhash_to_dna_sequence (new_kmerhash xxh memp memh mode) dna).p.dense) := by
    intro b hb
    obtain ⟨q1, q2, _⟩ := densCode_valid (link_kmerhash_to_dna_sequence (new_kmerhash xxh memp memh mode) dna).p.dense b (hv b (List.take_subset _ _ hb))
    exact ⟨q1, q2⟩
  obtain ⟨hview, _, _, _, _⟩ := fold_absorbStep_view (link_kmerhash_to_dna_sequence (new_kmerhash xxh memp memh mode) dna).p (densBits (link_kmerhash_to_dna_sequence (new_kmerhash xxh memp memh mode) dna).p.dense) rfl hw0 hw8
    (dna.take (min dna.length ((link_kmerhash_to_dna_sequence (new_kmerhash xxh memp memh mode) dna).p.size 0 + m))) (link_kmerhash_to_dna_sequence (new_kmerhash xxh memp memh mode) dna) hcodes
    (Nat.two_pow_pos 64) (Nat.two_pow_pos 64) (Nat.two_pow_pos 64) (Nat.two_pow_pos 64)
  have hfz : forwardView (link_kmerhash_to_dna_sequence (new_kmerhash xxh memp memh mode) dna).p (link_kmerhash_to_dna_sequence (new_kmerhash xxh memp memh mode) dna) = 0 := by
    unfold forwardView
    split_ifs <;>
      simp [show (link_kmerhash_to_dna_sequence (new_kmerhash xxh memp memh mode) dna).forward0 = 0 from rfl, show (link_kmerhash_to_dna_sequence (new_kmerhash xxh memp memh mode) dna).forward1 = 0 from rfl]
  have hrz : reverseView (link_kmerhash_to_dna_sequence (new_kmerhash xxh memp memh mode) dna).p (link_kmerhash_to_dna_sequence (new_kmerhash xxh memp memh mode) dna) = 0 := by
    unfold reverseView
    split_ifs <;>
      simp [show (link_kmerhash_to_dna_sequence (new_kmerhash xxh memp memh mode) dna).reverse0 = 0 from rfl, show (link_kmerhash_to_dna_sequence (new_kmerhash xxh memp memh mode) dna).reverse1 = 0 from rfl]
  rw [hfz, hrz] at hview
  have hpsb : ∀ pr ∈ ((dna.take (min dna.length ((link_kmerhash_to_dna_sequence (new_kmerhash xxh memp memh mode) dna).p.size 0 + m))).map (densCode (link_kmerhash_to_dna_sequence (new_kmerhash xxh memp memh mode) dna).p.dense)), pr.1 < 2 ^ (densBits (link_kmerhash_to_dna_sequence (new_kmerhash xxh memp memh mode) dna).p.dense) ∧ pr.2 < 2 ^ (densBits (link_kmerhash_to_dna_sequence (new_kmerhash xxh memp memh mode) dna).p.dense) := by
    intro pr hpr
    obtain ⟨b, hb, hbe⟩ := List.mem_map.mp hpr
    rw [← hbe]
    exact hcodes b hb
  have htle : (min dna.length ((link_kmerhash_to_dna_sequence (new_kmerhash xxh memp memh mode) dna).p.size 0 + m)) ≤ dna.length := Nat.min_le_left _ _
  have hpslen : j < ((dna.take (min dna.length ((link_kmerhash_to_dna_sequence (new_kmerhash xxh memp memh mode) dna).p.size 0 + m))).map (densCode (link_kmerhash_to_dna_sequence (new_kmerhash xxh memp memh mode) dna).p.dense)).length := by
    rw [List.length_map, List.length_take, Nat.min_eq_left htle]
    exact hj
  obtain ⟨pe1, pe2⟩ := pack_extract (if (link_kmerhash_to_dna_sequence (new_kmerhash xxh memp memh mode) dna).p.n2 ≠ 0 then 128 else 64) (densBits (link_kmerhash_to_dna_sequence (new_kmerhash xxh memp memh mode) dna).p.dense) hw0 ((dna.take (min dna.length ((link_kmerhash_to_dna_sequence (new_kmerhash xxh memp memh mode) dna).p.size 0 + m))).map (densCode (link_kmerhash_to_dna_sequence (new_kmerhash xxh memp memh mode) dna).p.dense)) hpsb j hpslen hjW
  have hF : forwardView (link_kmerhash_to_dna_sequence (new_kmerhash xxh memp memh mode) dna).p ((dna.take (min dna.length ((link_kmerhash_to_dna_sequence (new_kmerhash xxh memp memh mode) dna).p.size 0 + m))).foldl (absorbStep (link_kmerhash_to_dna_sequence (new_kmerhash xxh memp memh mode) dna).p) (link_kmerhash_to_dna_sequence (new_kmerhash xxh memp memh mode) dna)) = (((dna.take (min dna.length ((link_kmerhash_to_dna_sequence (new_kmerhash xxh memp memh mode) dna).p.size 0 + m))).map (densCode (link_kmerhash_to_dna_sequence (new_kmerhash xxh memp memh mode) dna).p.dense)).foldl (packStep (if (link_kmerhash_to_dna_sequence (new_kmerhash xxh memp memh mode) dna).p.n2 ≠ 0 then 128 else 64) (densBits (link_kmerhash_to_dna_sequence (new_kmerhash xxh memp memh mode) dna).p.dense)) (0, 0)).1 := by
    rw [← hview]
  have hS : reverseView (link_kmerhash_to_dna_sequence (new_kmerhash xxh memp memh mode) dna).p ((dna.take (min dna.length ((link_kmerhash_to_dna_sequence (new_kmerhash xxh memp memh mode) dna).p.size 0 + m))).foldl (absorbStep (link_kmerhash_to_dna_sequence (new_kmerhash xxh memp memh mode) dna).p) (link_kmerhash_to_dna_sequence (new_kmerhash xxh memp memh mode) dna)) = (((dna.take (min dna.length ((link_kmerhash_to_dna_sequence (new_kmerhash xxh memp memh mode) dna).p.size 0 + m))).map (densCode (link_kmerhash_to_dna_sequence (new_kmerhash xxh memp memh mode) dna).p.dense)).foldl (packStep (if (link_kmerhash_to_dna_sequence (new_kmerhash xxh memp memh mode) dna).p.n2 ≠ 0 then 128 else 64) (densBits (link_kmerhash_to_dna_sequence (new_kmerhash xxh memp memh mode) dna).p.dense)) (0, 0)).2 := by
    rw [← hview]
  simp only [Prod.mk.injEq] at h_regs
  obtain ⟨e0, e1, e2, e3⟩ := h_regs
  have hfv : forwardView (link_kmerhash_to_dna_sequence (new_kmerhash xxh memp memh mode) dna).p (runIter (m + 1) (link_kmerhash_to_dna_sequence (new_kmerhash xxh memp memh mode) dna)) = forwardView (link_kmerhash_to_dna_sequence (new_kmerhash xxh memp memh mode) dna).p ((dna.take (min dna.length ((link_kmerhash_to_dna_sequence (new_kmerhash xxh memp memh mode) dna).p.size 0 + m))).foldl (absorbStep (link_kmerhash_to_dna_sequence (new_kmerhash xxh memp memh mode) dna).p) (link_kmerhash_to_dna_sequence (new_kmerhash xxh memp memh mode) dna)) := by
    unfold forwardView
    rw [e0, e1]
  have hrv : reverseView (link_kmerhash_to_dna_sequence (new_kmerhash xxh memp memh mode) dna).p (runIter (m + 1) (link_kmerhash_to_dna_sequence (new_kmerhash xxh memp memh mode) dna)) = reverseView (link_kmerhash_to_dna_sequence (new_kmerhash xxh memp memh mode) dna).p ((dna.take (min dna.length ((link_kmerhash_to_dna_sequence (new_kmerhash xxh memp memh mode) dna).p.size 0 + m))).foldl (absorbStep (link_kmerhash_to_dna_sequence (new_kmerhash xxh memp memh mode) dna).p) (link_kmerhash_to_dna_sequence (new_kmerhash xxh memp memh mode) dna)) := by
    unfold reverseView
    rw [e2, e3]
  have hgd : ((dna.take (min dna.length ((link_kmerhash_to_dna_sequence (new_kmerhash xxh memp memh mode) dna).p.size 0 + m))).map (densCode (link_kmerhash_to_dna_sequence (new_kmerhash xxh memp memh mode) dna).p.dense)).reverse.getD j (0, 0)
      = densCode (link_kmerhash_to_dna_sequence (new_kmerhash xxh memp memh mode) dna).p.dense (dna.getD ((min dna.length ((link_kmerhash_to_dna_sequence (new_kmerhash xxh memp memh mode) dna).p.size 0 + m)) - 1 - j) 0) :=
    take_map_rev_getD (densCode (link_kmerhash_to_dna_sequence (new_kmerhash xxh memp memh mode) dna).p.dense) dna (min dna.length ((link_kmerhash_to_dna_sequence (new_kmerhash xxh memp memh mode) dna).p.size 0 + m)) j htle hj
  have hbmem : dna.getD ((min dna.length ((link_kmerhash_to_dna_sequence (new_kmerhash xxh memp memh mode) dna).p.size 0 + m)) - 1 - j) 0 ∈ dna := by
    have hlt : (min dna.length ((link_kmerhash_to_dna_sequence (new_kmerhash xxh memp memh mode) dna).p.size 0 + m)) - 1 - j < dna.length := by omega
    rw [List.getD_eq_getElem dna 0 hlt]
    exact List.getElem_mem hlt
  obtain ⟨q1, q2, q3⟩ := densCode_valid (link_kmerhash_to_dna_sequence (new_kmerhash xxh memp memh mode) dna).p.dense _ (hv _ hbmem)
  constructor
  · rw [hfv, hF, pe1, hgd]
  · rw [hrv, hS, pe2, hgd, hfv, hF, pe1, hgd]
    exact q3

/-- Closed instance of the reverse-window invariant: mode 0, input ACGT,
one call, most recent symbol (j = 0). -/
theorem C2_witness :
    (∀ b ∈ [65, 67, 71, 84], densSkip (new_kmer_params hSample zeroMem 0).dense b = false) ∧
    (1 ≤ List.length [65, 67, 71, 84]) ∧
    (0 < min (List.length [65, 67, 71, 84]) ((new_kmer_params hSample zeroMem 0).size 0 + 0)) ∧
    (densBits (new_kmer_params hSample zeroMem 0).dense * (0 + 1) ≤ (if (new_kmer_params hSample zeroMem 0).n2 ≠ 0 then 128 else 64)) ∧
    (forwardView (new_kmer_params hSample zeroMem 0) (runIter (0 + 1) (link_kmerhash_to_dna_sequence (new_kmerhash hSample zeroMem zeroMem 0) [65, 67, 71, 84])) / 2 ^ ((densBits (new_kmer_params hSample zeroMem 0).dense) * 0) % 2 ^ (densBits (new_kmer_params hSample zeroMem 0).dense)
        = (densCode (new_kmer_params hSample zeroMem 0).dense ([65, 67, 71, 84].getD ((min (List.length [65, 67, 71, 84]) ((new_kmer_params hSample zeroMem 0).size 0 + 0)) - 1 - 0) 0)).1 ∧
     reverseView (new_kmer_params hSample zeroMem 0) (runIter (0 + 1) (link_kmerhash_to_dna_sequence (new_kmerhash hSample zeroMem zeroMem 0) [65, 67, 71, 84])) / 2 ^ ((if (new_kmer_params hSample zeroMem 0).n2 ≠ 0 then 128 else 64) - (densBits (new_kmer_params hSample zeroMem 0).dense) * (0 + 1)) % 2 ^ (densBits (new_kmer_params hSample zeroMem 0).dense)
        = densComp (new_kmer_params hSample zeroMem 0).dense
            (forwardView (new_kmer_params hSample zeroMem 0) (runIter (0 + 1) (link_kmerhash_to_dna_sequence (new_kmerhash hSample zeroMem zeroMem 0) [65, 67, 71, 84])) / 2 ^ ((densBits (new_kmer_params hSample zeroMem 0).dense) * 0) % 2 ^ (densBits (new_kmer_params hSample zeroMem 0).dense))) :=
  ⟨by decide, by decide, by decide, by decide,
   C2_reverse_window_invariant hSample zeroMem zeroMem 0 [65, 67, 71, 84] 0 0
     (by decide) (by decide) (by decide) (by decide)⟩

/-- C8 (amended): at 4-bit density the iterator never skips (the skip test
is constantly false, so on any input every byte up to the cursor target is
absorbed into the window), every unrecognized byte carries the all-zeros
pattern `(0, 0)` (the zero-filled default, shared with the gap character),
and the all-ones matches-any-base pattern `(15, 15)` belongs exactly to the
defined wildcard characters N, O, X and `?`. -/
theorem C8_amended :
    (∀ b : ℕ, densSkip 0 b = false) ∧
    (∀ (xxh : List ℕ → ℕ → ℕ) (memp memh : ℕ → ℕ) (mode : ℤ) (dna : List ℕ) (m : ℕ),
      (new_kmer_params xxh memp mode).dense = 0 → 1 ≤ dna.length →
      (runIter (m + 1) (link_kmerhash_to_dna_sequence (new_kmerhash xxh memp memh mode) dna)).i = min dna.length ((new_kmer_params xxh memp mode).size 0 + m) ∧
      ((runIter (m + 1) (link_kmerhash_to_dna_sequence (new_kmerhash xxh memp memh mode) dna)).forward0, (runIter (m + 1) (link_kmerhash_to_dna_sequence (new_kmerhash xxh memp memh mode) dna)).forward1,
       (runIter (m + 1) (link_kmerhash_to_dna_sequence (new_kmerhash xxh memp memh mode) dna)).reverse0, (runIter (m + 1) (link_kmerhash_to_dna_sequence (new_kmerhash xxh memp memh mode) dna)).reverse1)
        = (((dna.take (min dna.length ((new_kmer_params xxh memp mode).size 0 + m))).foldl (absorbStep (new_kmer_params xxh memp mode)) (link_kmerhash_to_dna_sequence (new_kmerhash xxh memp memh mode) dna)).forward0, ((dna.take (min dna.length ((new_kmer_params xxh memp mode).size 0 + m))).foldl (absorbStep (new_kmer_params xxh memp mode)) (link_kmerhash_to_dna_sequence (new_kmerhash xxh memp memh mode) dna)).forward1,
           ((dna.take (min dna.length ((new_kmer_params xxh memp mode).size 0 + m))).foldl (absorbStep (new_kmer_params xxh memp mode)) (link_kmerhash_to_dna_sequence (new_kmerhash xxh memp memh mode) dna)).reverse0, ((dna.take (min dna.length ((new_kmer_params xxh memp mode).size 0 + m))).foldl (absorbStep (new_kmer_params xxh memp mode)) (link_kmerhash_to_dna_sequence (new_kmerhash xxh memp memh mode) dna)).reverse1)) ∧
    (∀ b : ℕ, b ∉ dnaAlphabet → dna_in_4_bits b = (0, 0)) ∧
    (∀ b ∈ dnaAlphabet, (dna_in_4_bits b = (15, 15) ↔ b ∈ [78, 79, 88, 63])) := by
  refine ⟨fun b => rfl, ?_, ?_, by decide⟩
  · intro xxh memp memh mode dna m hdense hd
    have hp0 : (link_kmerhash_to_dna_sequence (new_kmerhash xxh memp memh mode) dna).p = (new_kmer_params xxh memp mode) := rfl
    have hdna0 : (link_kmerhash_to_dna_sequence (new_kmerhash xxh memp memh mode) dna).dna = dna := rfl
    rw [← hp0] at hdense ⊢
    have hv : ∀ b ∈ dna, densSkip (link_kmerhash_to_dna_sequence (new_kmerhash xxh memp memh mode) dna).p.dense b = false := by
      intro b _
      rw [hdense]
      rfl
    obtain ⟨h_i, h_regs⟩ := runIter_valid_run (link_kmerhash_to_dna_sequence (new_kmerhash xxh memp memh mode) dna) hv rfl (size0_pos xxh memp mode) hd m
    rw [hdna0] at h_i h_regs
    exact ⟨h_i, h_regs⟩
  · intro b hb
    unfold dna_in_4_bits
    rw [if_neg (show ¬(b = 65) by intro h; exact hb (by rw [h]; decide)),
      if_neg (show ¬(b = 66) by intro h; exact hb (by rw [h]; decide)),
      if_neg (show ¬(b = 67) by intro h; exact hb (by rw [h]; decide)),
      if_neg (show ¬(b = 68) by intro h; exact hb (by rw [h]; decide)),
      if_neg (show ¬(b = 71) by intro h; exact hb (by rw [h]; decide)),
      if_neg (show ¬(b = 72) by intro h; exact hb (by rw [h]; decide)),
      if_neg (show ¬(b = 75) by intro h; exact hb (by rw [h]; decide)),
      if_neg (show ¬(b = 77) by intro h; exact hb (by rw [h]; decide)),
      if_neg (show ¬(b = 78) by intro h; exact hb (by rw [h]; decide)),
      if_neg (show ¬(b = 79) by intro h; exact hb (by rw [h]; decide)),
      if_neg (show ¬(b = 82) by intro h; exact hb (by rw [h]; decide)),
      if_neg (show ¬(b = 83) by intro h; exact hb (by rw [h]; decide)),
      if_neg (show ¬(b = 84) by intro h; exact hb (by rw [h]; decide)),
      if_neg (show ¬(b = 85) by intro h; exact hb (by rw [h]; decide)),
      if_neg (show ¬(b = 86) by intro h; exact hb (by rw [h]; decide)),
      if_neg (show ¬(b = 87) by intro h; exact hb (by rw [h]; decide)),
      if_neg (show ¬(b = 88) by intro h; exact hb (by rw [h]; decide)),
      if_neg (show ¬(b = 89) by intro h; exact hb (by rw [h]; decide)),
      if_neg (show ¬(b = 63) by intro h; exact hb (by rw [h]; decide)),
      if_neg (show ¬(b = 45) by intro h; exact hb (by rw [h]; decide))]

/-- Closed instance of the amended C8 statement: the unrecognized byte 'Z'
(90) is not skipped at 4-bit density and carries `(0, 0)`; a two-byte input
"ZA" at mode 2 (4-bit density) absorbs both bytes in one call; 'N' (78)
carries the all-ones pattern. -/
theorem C8_witness :
    densSkip 0 90 = false ∧
    ((new_kmer_params hSample zeroMem 2).dense = 0 ∧ 1 ≤ List.length [90, 65]) ∧
    ((runIter (0 + 1) (link_kmerhash_to_dna_sequence (new_kmerhash hSample zeroMem zeroMem 2) [90, 65])).i = min (List.length [90, 65]) ((new_kmer_params hSample zeroMem 2).size 0 + 0) ∧
      ((runIter (0 + 1) (link_kmerhash_to_dna_sequence (new_kmerhash hSample zeroMem zeroMem 2) [90, 65])).forward0, (runIter (0 + 1) (link_kmerhash_to_dna_sequence (new_kmerhash hSample zeroMem zeroMem 2) [90, 65])).forward1,
       (runIter (0 + 1) (link_kmerhash_to_dna_sequence (new_kmerhash hSample zeroMem zeroMem 2) [90, 65])).reverse0, (runIter (0 + 1) (link_kmerhash_to_dna_sequence (new_kmerhash hSample zeroMem zeroMem 2) [90, 65])).reverse1)
        = (((([90, 65] : List ℕ).take (min (List.length [90, 65]) ((new_kmer_params hSample zeroMem 2).size 0 + 0))).foldl (absorbStep (new_kmer_params hSample zeroMem 2)) (link_kmerhash_to_dna_sequence (new_kmerhash hSample zeroMem zeroMem 2) [90, 65])).forward0, ((([90, 65] : List ℕ).take (min (List.length [90, 65]) ((new_kmer_params hSample zeroMem 2).size 0 + 0))).foldl (absorbStep (new_kmer_params hSample zeroMem 2)) (link_kmerhash_to_dna_sequence (new_kmerhash hSample zeroMem zeroMem 2) [90, 65])).forward1,
           ((([90, 65] : List ℕ).take (min (List.length [90, 65]) ((new_kmer_params hSample zeroMem 2).size 0 + 0))).foldl (absorbStep (new_kmer_params hSample zeroMem 2)) (link_kmerhash_to_dna_sequence (new_kmerhash hSample zeroMem zeroMem 2) [90, 65])).reverse0, ((([90, 65] : List ℕ).take (min (List.length [90, 65]) ((new_kmer_params hSample zeroMem 2).size 0 + 0))).foldl (absorbStep (new_kmer_params hSample zeroMem 2)) (link_kmerhash_to_dna_sequence (new_kmerhash hSample zeroMem zeroMem 2) [90, 65])).reverse1)) ∧
    (90 ∉ dnaAlphabet ∧ dna_in_4_bits 90 = (0, 0)) ∧
    (78 ∈ dnaAlphabet ∧ (dna_in_4_bits 78 = (15, 15) ↔ 78 ∈ [78, 79, 88, 63])) :=
  ⟨C8_amended.1 90,
   ⟨by decide, by decide⟩,
   C8_amended.2.1 hSample zeroMem zeroMem 2 [90, 65] 0 (by decide) (by decide),
   ⟨by decide, C8_amended.2.2.1 90 (by decide)⟩,
   ⟨by decide, C8_amended.2.2.2 78 (by decide)⟩⟩
